import Mathlib

/-!
A verification development of the distance-estimation core of the ARKS
scaffolder (source file `Arks/DistanceEst.h`).  C++ map containers are
modelled as association lists, machine integers as `Nat`/`Int`, and IEEE
doubles as exact rationals (`ℚ`).  Entities that `DistanceEst.h` uses but
that are declared in headers outside this core (`Arks/Arks.h`,
`Common/MapUtil.h`, `Common/StatUtil.h`) are modelled from the
specification and marked as such in their doc comments.
-/

namespace Arks

/-! ### Generic association-list operations -/

/-- Lookup of the (first) binding of a key in an association list; this is
the observable behaviour of `find`/`at` on the C++ maps, whose keys are
unique. -/
def lookupA {α β : Type} [DecidableEq α] : List (α × β) → α → Option β
  | [], _ => none
  | (k, v) :: rest, a => if a = k then some v else lookupA rest a

/-- Update of the (first) binding of `k`, creating it from the default
value `d` when absent: the effect of `m[k] = f(m[k])` on a C++ map whose
`operator[]` default-constructs missing entries. -/
def updA {α β : Type} [DecidableEq α] (l : List (α × β)) (k : α) (d : β) (f : β → β) :
    List (α × β) :=
  match l with
  | [] => [(k, f d)]
  | (k', v) :: rest => if k' = k then (k', f v) :: rest else (k', v) :: updA rest k d f

/-! ### Data model -/

/-- Modelled from the spec: the threshold configuration `ARCS::ArcsParams`
(declared in `Arks/Arks.h`, not under this core): barcode multiplicity
bounds, minimum read-pair count, contig end-region length (a nonnegative
base count; the C++ `int` is only ever used through the unsigned value
`2 * end_length`), and the similarity-space half-width of the calibration
window. -/
structure ArcsParams where
  min_mult : Int
  max_mult : Int
  min_reads : Int
  end_length : Nat
  dist_bin_size : ℚ

/-- `struct DistanceEstimate`: min/max distance estimate for a pair of
contigs, zero-initialised by its constructor. -/
structure DistanceEstimate where
  minDist : Int := 0
  maxDist : Int := 0
  jaccard : ℚ := 0
deriving DecidableEq

/-- `struct DistSample`: distance between the head/tail regions of one
contig together with its barcode statistics, with the default values of
its C++ constructor (`distance` starts at `UINT_MAX`). -/
structure DistSample where
  distance : Nat := 4294967295
  barcodesHead : Nat := 0
  barcodesTail : Nat := 0
  barcodesUnion : Nat := 0
  barcodesIntersect : Nat := 0
deriving DecidableEq

/-- Modelled from the spec: one orientation variant of the pair statistics
(`ARCS::PairRecord`, declared in `Arks/Arks.h`); only the four barcode
counters used by this core are modelled, zero-initialised as by the C++
default constructor. -/
structure PairRecord where
  barcodesIntersect : Nat := 0
  barcodes1 : Nat := 0
  barcodes2 : Nat := 0
  barcodesUnion : Nat := 0
deriving DecidableEq

/-- Modelled from the spec: a contig-end key `(contig id, head flag)`
(`ARCS::CI` from `Arks/Arks.h`). -/
abbrev CI := String × Bool

/-- Modelled from the spec: barcode evidence for one barcode, mapping each
contig end to its read-pair count (`ARCS::ScafMap`). -/
abbrev ScafMap := List (CI × Int)

/-- Modelled from the spec: the barcode → contig-end evidence map
(`ARCS::IndexMap`). -/
abbrev IndexMap := List (String × ScafMap)

/-- Modelled from the spec: contig id → length; every contig referenced in
the evidence has an entry (a missing entry is a fatal precondition
violation), so the map is modelled as a total function. -/
abbrev ContigToLength := String → Nat

/-- Modelled from the spec: barcode → multiplicity, total for the same
reason as `ContigToLength`. -/
abbrev IndexMultMap := String → Int

/-- `DistSampleMap`: contig id → calibration sample. -/
abbrev DistSampleMap := List (String × DistSample)

/-- `JaccardToDist`, modelling `std::map<double, DistSample>`: an
association list kept sorted by strictly increasing key. -/
abbrev JaccardToDist := List (ℚ × DistSample)

/-- Modelled from the spec: an unordered contig-id pair (`ARCS::ContigPair`). -/
abbrev PairKey := String × String

/-- Modelled from the spec: the array of the four orientation variants
{HH, HT, TH, TT} of one pair's statistics (`ARCS::PairRecordArray`),
indexed by orientation. -/
abbrev PairArr := Fin 4 → PairRecord

/-- Modelled from the spec: pair → orientation-variant array
(`ARCS::PairMap`). -/
abbrev PairMap := List (PairKey × PairArr)

/-- Modelled from the spec: the per-(contig, end) distinct-barcode side
table (`ContigEndToBarcodeCount`, a local `unordered_map<CI, size_t>`). -/
abbrev BarcodeCountMap := List (CI × Nat)

/-! ### Sample Builder (`calcDistSamples`) -/

/-- The eligibility test applied inline by `calcDistSamples` (its two
`continue` guards): skip observations with fewer than `min_reads` read
pairs, and skip contigs shorter than twice the end length. -/
def calcDistSamplesEligible (contigLength : Nat) (pairs : Int) (params : ArcsParams) : Bool :=
  if pairs < params.min_reads then false
  else if contigLength < 2 * params.end_length then false
  else true

/-- Does the current barcode map to the end of contig `c` selected by `h`
with at least `min_reads` read pairs?  With `h := !isHead` this is the
`foundOther` test of `calcDistSamples`. -/
def endHasMinReads (params : ArcsParams) (sm : ScafMap) (c : String) (h : Bool) : Bool :=
  match lookupA sm (c, h) with
  | some p => decide (params.min_reads ≤ p)
  | none => false

/-- The update applied by `calcDistSamples` to one contig's sample for one
qualifying observation `o` of the current barcode: set the known distance,
bump the head or tail counter, and bump union/intersect according to
whether the same barcode also has `min_reads` read pairs at the other end
(`foundOther`), intersect/union being bumped only on the head observation. -/
def applyObs (ctl : ContigToLength) (params : ArcsParams) (sm : ScafMap) (o : CI × Int)
    (ds : DistSample) : DistSample :=
  let ds1 : DistSample := { ds with distance := ctl o.1.1 - 2 * params.end_length }
  let ds2 : DistSample :=
    if o.1.2 then { ds1 with barcodesHead := ds1.barcodesHead + 1 }
    else { ds1 with barcodesTail := ds1.barcodesTail + 1 }
  let fo : Bool := endHasMinReads params sm o.1.1 (!o.1.2)
  if fo && o.1.2 then
    { ds2 with barcodesIntersect := ds2.barcodesIntersect + 1,
               barcodesUnion := ds2.barcodesUnion + 1 }
  else if !fo then { ds2 with barcodesUnion := ds2.barcodesUnion + 1 }
  else ds2

/-- One iteration of the inner loop of `calcDistSamples`: process one
(contig end → read pairs) observation of the current barcode. -/
def processObs (ctl : ContigToLength) (params : ArcsParams) (sm : ScafMap)
    (m : DistSampleMap) (o : CI × Int) : DistSampleMap :=
  if calcDistSamplesEligible (ctl o.1.1) o.2 params then
    updA m o.1.1 {} (applyObs ctl params sm o)
  else m

/-- One iteration of the outer loop of `calcDistSamples`: skip the barcode
when its multiplicity is outside `[min_mult, max_mult]`, otherwise process
all its observations. -/
def processBarcode (ctl : ContigToLength) (params : ArcsParams) (mult : IndexMultMap)
    (m : DistSampleMap) (b : String × ScafMap) : DistSampleMap :=
  if mult b.1 < params.min_mult || params.max_mult < mult b.1 then m
  else b.2.foldl (processObs ctl params b.2) m

/-- `calcDistSamples`: measure the distance between contig ends together
with barcode union/intersection sizes, one calibration sample per
qualifying contig. -/
def calcDistSamples (imap : IndexMap) (ctl : ContigToLength) (mult : IndexMultMap)
    (params : ArcsParams) : DistSampleMap :=
  imap.foldl (processBarcode ctl params mult) []

/-- The intersect counter of contig `c`'s sample in a sample map (0 when
the sample does not exist yet, matching the zero-initialising default
constructor). -/
def sampleI (m : DistSampleMap) (c : String) : Nat :=
  ((lookupA m c).getD {}).barcodesIntersect

/-- The union counter of contig `c`'s sample. -/
def sampleU (m : DistSampleMap) (c : String) : Nat :=
  ((lookupA m c).getD {}).barcodesUnion

/-- The head counter of contig `c`'s sample. -/
def sampleH (m : DistSampleMap) (c : String) : Nat :=
  ((lookupA m c).getD {}).barcodesHead

/-- The tail counter of contig `c`'s sample. -/
def sampleT (m : DistSampleMap) (c : String) : Nat :=
  ((lookupA m c).getD {}).barcodesTail

/-- Does the current barcode have a qualifying observation (eligibility
guards of `calcDistSamples` included) at the end of contig `c` selected by
`h`? -/
def qualEnd (ctl : ContigToLength) (params : ArcsParams) (sm : ScafMap) (c : String)
    (h : Bool) : Bool :=
  match lookupA sm (c, h) with
  | some p => calcDistSamplesEligible (ctl c) p params
  | none => false

/-- The per-sample invariants maintained by the Sample Builder: unique
contig keys, the known distance fixed from the contig length, intersect
bounded by union, a positive union, and the head/tail versus
union/intersect counting identity. -/
def sampleInvariant (ctl : ContigToLength) (params : ArcsParams) (m : DistSampleMap) : Prop :=
  (m.map Prod.fst).Nodup ∧
  ∀ c ds, lookupA m c = some ds →
    ds.distance = ctl c - 2 * params.end_length ∧
    ds.barcodesIntersect ≤ ds.barcodesUnion ∧
    1 ≤ ds.barcodesUnion ∧
    ds.barcodesHead + ds.barcodesTail = ds.barcodesUnion + ds.barcodesIntersect

/-! ### Calibration index builder (`buildJaccardToDist`) -/

/-- The Jaccard key under which a calibration sample is inserted:
`intersect / union` (exact rational model of the C++ `double` division). -/
def jaccardKey (s : DistSample) : ℚ :=
  (s.barcodesIntersect : ℚ) / (s.barcodesUnion : ℚ)

/-- Insertion into the key-sorted association list modelling
`std::map<double, DistSample>::insert`: like `std::map::insert`, an
insertion with an already-present key is a no-op. -/
def jinsert (l : JaccardToDist) (k : ℚ) (v : DistSample) : JaccardToDist :=
  match l with
  | [] => [(k, v)]
  | (k', v') :: rest =>
    if k < k' then (k, v) :: (k', v') :: rest
    else if k = k' then (k', v') :: rest
    else (k', v') :: jinsert rest k v

/-- `buildJaccardToDist`: build the ordered map from barcode Jaccard index
to distance sample. -/
def buildJaccardToDist (distSamples : DistSampleMap) : JaccardToDist :=
  distSamples.foldl (fun m e => jinsert m (jaccardKey e.2) e.2) []

/-! ### Eligibility predicate (`validBarcodeMapping`) -/

/-- `validBarcodeMapping`: requirements for using a barcode-to-contig-end
mapping in distance estimates. -/
def validBarcodeMapping (contigLength : Nat) (pairs : Int) (params : ArcsParams) : Bool :=
  if pairs < params.min_reads then false
  else if contigLength < 2 * params.end_length then false
  else true

/-! ### Pair statistics builder (`calcContigPairBarcodeStats`) -/

/-- The orientation variant selected by the head flags of the two contig
ends: HH = 0, HT = 1, TH = 2, TT = 3. -/
def orient (head1 head2 : Bool) : Fin 4 :=
  if head1 then (if head2 then 0 else 1) else (if head2 then 2 else 3)

/-- The head flag of the first contig's end used by orientation `i`
(`i == HH || i == HT` in the post-scan loop). -/
def flagOf1 (i : Fin 4) : Bool :=
  decide (i.val = 0) || decide (i.val = 1)

/-- The head flag of the second contig's end used by orientation `i`
(`i == HH || i == TH` in the post-scan loop). -/
def flagOf2 (i : Fin 4) : Bool :=
  decide (i.val = 0) || decide (i.val = 2)

/-- Increment the shared-barcode count of orientation `i` in a pair's
variant array. -/
def bumpArr (arr : PairArr) (i : Fin 4) : PairArr :=
  Function.update arr i
    { arr i with barcodesIntersect := (arr i).barcodesIntersect + 1 }

/-- `pmap[pair].fill(PairRecord())` followed by
`pmap[pair][orientation].barcodesIntersect++`: create the pair's variant
array (all four variants default-constructed) when absent and bump the
selected variant's shared count. -/
def pmBump (pm : PairMap) (cp : PairKey) (i : Fin 4) : PairMap :=
  updA pm cp (fun _ => {}) (fun arr => bumpArr arr i)

/-- Bump the side table's distinct-barcode count of one contig end
(`contigEndToBarcodeCount[end]++`). -/
def sideBump (t : BarcodeCountMap) (k : CI) : BarcodeCountMap :=
  updA t k 0 (fun n => n + 1)

/-- One iteration of the innermost loop of `calcContigPairBarcodeStats`:
for the fixed first end `e1`, check the second end's eligibility, skip the
pair when `id1 > id2` (the C++ `std::string` order, lexicographic on
characters), and otherwise bump the matching orientation variant.  The
scan state of the builder: the side table and the pair map. -/
def procInner (ctl : ContigToLength) (params : ArcsParams) (e1 : CI × Int)
    (pm : PairMap) (e2 : CI × Int) : PairMap :=
  if !validBarcodeMapping (ctl e2.1.1) e2.2 params then pm
  else if e2.1.1.data < e1.1.1.data then pm
  else pmBump pm (e1.1.1, e2.1.1) (orient e1.1.2 e2.1.2)

/-- One iteration of the middle loop: check the first end's eligibility,
count it in the side table, then run the innermost loop over the same
barcode's observations. -/
def procOuter (ctl : ContigToLength) (params : ArcsParams) (sm : ScafMap)
    (st : BarcodeCountMap × PairMap) (e1 : CI × Int) : BarcodeCountMap × PairMap :=
  if !validBarcodeMapping (ctl e1.1.1) e1.2 params then st
  else (sideBump st.1 e1.1, sm.foldl (procInner ctl params e1) st.2)

/-- One iteration of the barcode loop of `calcContigPairBarcodeStats`:
skip barcodes outside the multiplicity range, otherwise run the nested
end-pair scan. -/
def procPairBarcode (ctl : ContigToLength) (params : ArcsParams) (mult : IndexMultMap)
    (st : BarcodeCountMap × PairMap) (b : String × ScafMap) : BarcodeCountMap × PairMap :=
  if mult b.1 < params.min_mult || params.max_mult < mult b.1 then st
  else b.2.foldl (procOuter ctl params b.2) st

/-- The scan phase of `calcContigPairBarcodeStats`: the side table of
distinct-barcode counts per contig end, and the pair map with the
shared-barcode counts of each orientation variant. -/
def pairScan (imap : IndexMap) (ctl : ContigToLength) (mult : IndexMultMap)
    (params : ArcsParams) : BarcodeCountMap × PairMap :=
  imap.foldl (procPairBarcode ctl params mult) ([], [])

/-- The post-scan fill of one orientation variant: look up the
distinct-barcode counts of the two ends used by orientation `i` in the
side table (`contigEndToBarcodeCount.at(...)`, which throws when the key
is missing — modelled as `none`), then derive the union.  The C++ union is
computed in unsigned arithmetic; `Nat` subtraction agrees with it whenever
`barcodes1 + barcodes2 ≥ barcodesIntersect`. -/
def fillRecAt (t : BarcodeCountMap) (cp : PairKey) (i : Fin 4) (rec : PairRecord) :
    Option PairRecord :=
  match lookupA t (cp.1, flagOf1 i), lookupA t (cp.2, flagOf2 i) with
  | some b1, some b2 =>
    some { rec with barcodes1 := b1, barcodes2 := b2,
                    barcodesUnion := b1 + b2 - rec.barcodesIntersect }
  | _, _ => none

/-- The post-scan fill of one pair's four orientation variants. -/
def fillArr (t : BarcodeCountMap) (cp : PairKey) (arr : PairArr) : Option PairArr :=
  match fillRecAt t cp 0 (arr 0), fillRecAt t cp 1 (arr 1),
        fillRecAt t cp 2 (arr 2), fillRecAt t cp 3 (arr 3) with
  | some r0, some r1, some r2, some r3 =>
    some (fun i => if i.val = 0 then r0 else if i.val = 1 then r1
                   else if i.val = 2 then r2 else r3)
  | _, _, _, _ => none

/-- The post-scan loop over the whole pair map; a failing side-table
lookup (`at` throwing) aborts the computation. -/
def fillAll (t : BarcodeCountMap) : PairMap → Option PairMap
  | [] => some []
  | (cp, arr) :: rest =>
    match fillArr t cp arr, fillAll t rest with
    | some a, some r => some ((cp, a) :: r)
    | _, _ => none

/-- `calcContigPairBarcodeStats`: shared-barcode statistics for candidate
contig pairs — the nested scan followed by the post-scan fill of
`barcodes1`, `barcodes2` and `barcodesUnion` from the side table. -/
def calcContigPairBarcodeStats (imap : IndexMap) (ctl : ContigToLength)
    (mult : IndexMultMap) (params : ArcsParams) : Option PairMap :=
  let st := pairScan imap ctl mult params
  fillAll st.1 st.2

/-- The value of the side table at a contig end (0 when the end was never
counted). -/
def sideGet (t : BarcodeCountMap) (k : CI) : Nat := (lookupA t k).getD 0

/-- The shared-barcode count of orientation `i` of pair `cp` in a pair map
(0 when the pair is absent, matching the zero-initialised variants). -/
def pmGetI (pm : PairMap) (cp : PairKey) (i : Fin 4) : Nat :=
  (((lookupA pm cp).getD (fun _ => {})) i).barcodesIntersect

/-- Does the barcode `sm` hold an observation at contig end `k` that
passes `validBarcodeMapping`? -/
def validKey (ctl : ContigToLength) (params : ArcsParams) (sm : ScafMap) (k : CI) : Bool :=
  match lookupA sm k with
  | some p => validBarcodeMapping (ctl k.1) p params
  | none => false

/-- The scan invariant of the Pair Statistics Builder: side-table values
are positive, pair keys are unique, and each variant's shared count is
bounded by the side-table counts of the two contig ends that variant
pairs. -/
def pairInvariant (st : BarcodeCountMap × PairMap) : Prop :=
  (∀ kv ∈ st.1, 1 ≤ kv.2) ∧
  (st.2.map Prod.fst).Nodup ∧
  ∀ cp i, pmGetI st.2 cp i ≤ sideGet st.1 (cp.1, flagOf1 i) ∧
          pmGetI st.2 cp i ≤ sideGet st.1 (cp.2, flagOf2 i)

/-! ### Distance estimator (`estimateDistance`) -/

/-- Modelled from the spec: `closestKeys` (declared in `Common/MapUtil.h`,
not part of this core) returns the contiguous range of calibration-index
entries whose key lies within `± binSize` of `key`. -/
def closestKeys (jtd : JaccardToDist) (key binSize : ℚ) : JaccardToDist :=
  jtd.filter (fun kv => decide (key - binSize ≤ kv.1) && decide (kv.1 ≤ key + binSize))

/-- Modelled from the spec: the linear-interpolation quantile of a sorted
nonempty sample list — standard percentile interpolation between the two
bracketing sorted order statistics. -/
def interpolatedQuantile (l : List Nat) (q : ℚ) : ℚ :=
  let n := l.length
  let h : ℚ := q * ((n : ℚ) - 1)
  let j : Nat := (⌊h⌋).toNat
  let lo : ℚ := ((l.getD (min j (n - 1)) 0 : Nat) : ℚ)
  let hi : ℚ := ((l.getD (min (j + 1) (n - 1)) 0 : Nat) : ℚ)
  lo + (h - (⌊h⌋ : ℚ)) * (hi - lo)

/-- Modelled from the spec: `quantile` (declared in `Common/StatUtil.h`,
not part of this core), linear-interpolation quantile semantics over a
sorted range.  The spec leaves the quantile of an empty sample list
undefined ("no defined quantile"); this model returns 0 there. -/
def quantile (l : List Nat) (q : ℚ) : ℚ :=
  if l.isEmpty then 0 else interpolatedQuantile l q

/-- `estimateDistance`: estimate the min/max distance between a pair of
contigs from one orientation variant's statistics and the calibration
index. -/
def estimateDistance (rec : PairRecord) (jaccardToDist : JaccardToDist)
    (params : ArcsParams) : DistanceEstimate × Bool :=
  if jaccardToDist.isEmpty then ({}, false)
  else if rec.barcodesUnion = 0 then ({}, false)
  else
    let jaccard : ℚ := (rec.barcodesIntersect : ℚ) / (rec.barcodesUnion : ℚ)
    let window := closestKeys jaccardToDist jaccard params.dist_bin_size
    let distances := window.map (fun kv => kv.2.distance)
    let sorted := distances.mergeSort (fun a b => a ≤ b)
    ({ minDist := ⌊quantile sorted (1 / 100)⌋,
       maxDist := ⌈quantile sorted (99 / 100)⌉,
       jaccard := jaccard }, true)

/-- The window of calibration entries described by the spec: those whose
key lies within the symmetric `± binSize` interval around `key`, written
with an absolute difference. -/
def specWindow (jtd : JaccardToDist) (key binSize : ℚ) : JaccardToDist :=
  jtd.filter (fun kv => decide (|kv.1 - key| ≤ binSize))

/-! ### Concrete inputs used to exercise the theorems -/

/-- A threshold configuration used by several concrete instances. -/
def paramsEx : ArcsParams :=
  { min_mult := 0, max_mult := 10, min_reads := 1, end_length := 5, dist_bin_size := 1 / 10 }

/-- A pair record with positive union and zero intersection. -/
def recC3 : PairRecord :=
  { barcodesIntersect := 0, barcodes1 := 1, barcodes2 := 1, barcodesUnion := 1 }

/-- A calibration sample with Jaccard key 9/10. -/
def sampleC3 : DistSample :=
  { distance := 1000, barcodesHead := 10, barcodesTail := 9,
    barcodesUnion := 10, barcodesIntersect := 9 }

/-- A calibration index whose only key, 9/10, is far from 0. -/
def jtdC3 : JaccardToDist := [(jaccardKey sampleC3, sampleC3)]

/-- Two distinct calibration samples with the same Jaccard key 1/2. -/
def dsC2 : DistSampleMap :=
  [("a", { distance := 10, barcodesHead := 1, barcodesTail := 1,
           barcodesUnion := 2, barcodesIntersect := 1 }),
   ("b", { distance := 20, barcodesHead := 2, barcodesTail := 2,
           barcodesUnion := 2, barcodesIntersect := 1 })]

/-- Two calibration samples with distinct Jaccard keys 0 and 1. -/
def dsC2W : DistSampleMap :=
  [("a", { distance := 10, barcodesHead := 1, barcodesTail := 0,
           barcodesUnion := 1, barcodesIntersect := 0 }),
   ("b", { distance := 20, barcodesHead := 1, barcodesTail := 1,
           barcodesUnion := 1, barcodesIntersect := 1 })]

/-- A contig-length map giving every contig length 100. -/
def ctlEx : ContigToLength := fun _ => 100

/-- A multiplicity map giving every barcode multiplicity 1. -/
def multEx : IndexMultMap := fun _ => 1

/-- One barcode's evidence: qualifying observations at both ends of
contig `A`. -/
def smEx : ScafMap := [(("A", true), 5), (("A", false), 5)]

/-- One barcode with qualifying observations at both ends of contig `A`. -/
def imapEx : IndexMap := [("b", smEx)]

/-- The calibration sample produced for contig `A` from `imapEx`. -/
def dsEx : DistSample :=
  { distance := 90, barcodesHead := 1, barcodesTail := 1,
    barcodesUnion := 1, barcodesIntersect := 1 }

/-- A one-entry calibration index whose key 1 equals the Jaccard score of
`recEx5`. -/
def jtdC8 : JaccardToDist := [(1, dsEx)]

/-- One barcode with qualifying observations at the heads of two contigs
but at neither tail: contig `A`'s tail never receives a qualifying
barcode, yet pairs involving `A` materialise all four orientation
variants. -/
def imapC1 : IndexMap := [("b", [(("A", true), 5), (("B", true), 5)])]

/-- The filled orientation-variant record produced for the pair (A, A)
from `imapEx`. -/
def recEx5 : PairRecord :=
  { barcodesIntersect := 1, barcodes1 := 1, barcodes2 := 1, barcodesUnion := 1 }

/-- The filled variant array produced for the pair (A, A) from `imapEx`. -/
def arrEx5 : PairArr :=
  fun i => if i.val = 0 then recEx5 else if i.val = 1 then recEx5
           else if i.val = 2 then recEx5 else recEx5

/-- The pair map produced from `imapEx`. -/
def pmEx5 : PairMap := [(("A", "A"), arrEx5)]

end Arks

/-! ## Theorems -/

namespace Arks

/-! ### Association-list lemmas -/

theorem lookupA_nil {α β : Type} [DecidableEq α] (a : α) :
    lookupA ([] : List (α × β)) a = none := rfl

theorem lookupA_cons {α β : Type} [DecidableEq α] (k : α) (v : β) (rest : List (α × β)) (a : α) :
    lookupA ((k, v) :: rest) a = if a = k then some v else lookupA rest a := rfl

theorem lookupA_updA {α β : Type} [DecidableEq α] (l : List (α × β)) (k a : α) (d : β)
    (f : β → β) :
    lookupA (updA l k d f) a =
      if a = k then some (f ((lookupA l k).getD d)) else lookupA l a := by
  induction l with
  | nil =>
    by_cases h : a = k <;> simp [updA, lookupA, h]
  | cons kv rest ih =>
    obtain ⟨k', v⟩ := kv
    by_cases h1 : k' = k
    · subst h1
      by_cases h2 : a = k' <;> simp [updA, lookupA, h2]
    · have h1' : ¬ k = k' := fun h => h1 h.symm
      by_cases h2 : a = k'
      · have ha : ¬ a = k := fun hh => h1 (by rw [← h2]; exact hh)
        simp [updA, lookupA, h1, h2, ha]
      · simp [updA, lookupA, h1, h2, h1', ih]

theorem updA_keys {α β : Type} [DecidableEq α] (l : List (α × β)) (k : α) (d : β)
    (f : β → β) :
    (updA l k d f).map Prod.fst =
      if k ∈ l.map Prod.fst then l.map Prod.fst else l.map Prod.fst ++ [k] := by
  induction l with
  | nil => simp [updA]
  | cons kv rest ih =>
    obtain ⟨k', v⟩ := kv
    by_cases h1 : k' = k
    · subst h1; simp [updA]
    · have h1' : ¬ k = k' := fun h => h1 h.symm
      by_cases h2 : k ∈ rest.map Prod.fst <;>
        simp [updA, h1, h1', h2, ih]

theorem updA_keys_nodup {α β : Type} [DecidableEq α] (l : List (α × β)) (k : α) (d : β)
    (f : β → β) (h : (l.map Prod.fst).Nodup) : ((updA l k d f).map Prod.fst).Nodup := by
  rw [updA_keys]
  by_cases h2 : k ∈ l.map Prod.fst
  · simpa [h2] using h
  · simp [h2, List.nodup_append, h]

theorem mem_updA_values {α β : Type} [DecidableEq α] (l : List (α × β)) (k : α) (d : β)
    (f : β → β) (P : β → Prop) (hl : ∀ kv ∈ l, P kv.2) (hf : ∀ v, P v → P (f v))
    (hd : P (f d)) : ∀ kv ∈ updA l k d f, P kv.2 := by
  induction l with
  | nil => intro kv hkv; simp [updA] at hkv; simp [hkv, hd]
  | cons kv0 rest ih =>
    obtain ⟨k', v⟩ := kv0
    intro kv hkv
    by_cases h1 : k' = k
    · simp [updA, h1] at hkv
      rcases hkv with hkv | hkv
      · simp [hkv]; exact hf v (hl (k', v) (by simp))
      · exact hl kv (by simp [hkv])
    · simp [updA, h1] at hkv
      rcases hkv with hkv | hkv
      · exact hl kv (by simp [hkv])
      · exact ih (fun kv2 hkv2 => hl kv2 (by simp [hkv2])) kv hkv

theorem lookupA_mem {α β : Type} [DecidableEq α] {l : List (α × β)} {a : α} {v : β}
    (h : lookupA l a = some v) : (a, v) ∈ l := by
  induction l with
  | nil => simp [lookupA] at h
  | cons kv rest ih =>
    obtain ⟨k, v'⟩ := kv
    by_cases h1 : a = k
    · simp [lookupA, h1] at h
      simp [h1, h]
    · simp [lookupA, h1] at h
      simp [ih h]

theorem lookupA_eq_some_of_mem {α β : Type} [DecidableEq α] {l : List (α × β)} {a : α} {v : β}
    (hnd : (l.map Prod.fst).Nodup) (h : (a, v) ∈ l) : lookupA l a = some v := by
  induction l with
  | nil => simp at h
  | cons kv rest ih =>
    obtain ⟨k, v'⟩ := kv
    simp only [List.map_cons, List.nodup_cons] at hnd
    rcases List.mem_cons.1 h with h1 | h1
    · rw [Prod.mk.injEq] at h1
      obtain ⟨rfl, rfl⟩ := h1
      simp [lookupA]
    · have hak : ¬ a = k := by
        rintro rfl
        exact hnd.1 (List.mem_map.2 ⟨(a, v), h1, rfl⟩)
      simp [lookupA, hak, ih hnd.2 h1]

/-! ### Fold and count lemmas -/

theorem foldl_obs_add {σ α : Type} (step : σ → α → σ) (obs : σ → Nat) (w : α → Nat)
    (hstep : ∀ s a, obs (step s a) = obs s + w a) (l : List α) (s : σ) :
    obs (l.foldl step s) = obs s + (l.map w).sum := by
  induction l generalizing s with
  | nil => simp
  | cons a rest ih => simp [List.foldl_cons, ih, hstep]; omega

theorem foldl_preserve {σ α : Type} (step : σ → α → σ) (P : σ → Prop)
    (h : ∀ s a, P s → P (step s a)) (l : List α) (s : σ) (hs : P s) :
    P (l.foldl step s) := by
  induction l generalizing s with
  | nil => exact hs
  | cons a rest ih => exact ih _ (h s a hs)

theorem map_ite_sum_eq_countP {α : Type} (l : List α) (p : α → Bool) :
    (l.map (fun a => if p a then 1 else 0)).sum = l.countP p := by
  induction l with
  | nil => simp
  | cons a rest ih => by_cases h : p a <;> simp [List.countP_cons, h, ih] <;> omega

theorem countP_key {α β : Type} [DecidableEq α] (l : List (α × β))
    (hnd : (l.map Prod.fst).Nodup) (k : α) (q : β → Bool) :
    l.countP (fun o => decide (o.1 = k) && q o.2) =
      (match lookupA l k with
       | some v => if q v then 1 else 0
       | none => 0) := by
  induction l with
  | nil => simp [lookupA]
  | cons kv rest ih =>
    obtain ⟨k', v⟩ := kv
    simp only [List.map_cons, List.nodup_cons] at hnd
    by_cases h1 : k' = k
    · subst h1
      have hrest : rest.countP (fun o => decide (o.1 = k') && q o.2) = 0 := by
        rw [List.countP_eq_zero]
        intro o ho
        simp only [Bool.and_eq_true, decide_eq_true_eq]
        rintro ⟨hk, -⟩
        exact hnd.1 (hk ▸ List.mem_map_of_mem Prod.fst ho)
      by_cases hq : q v <;> simp [List.countP_cons, lookupA, hrest, hq]
    · have hk : ¬ k = k' := fun h => h1 h.symm
      simp [List.countP_cons, lookupA, hk, h1, ih hnd.2]

theorem countP_disjoint_or {α : Type} (l : List α) (p q : α → Bool)
    (h : ∀ a ∈ l, ¬(p a = true ∧ q a = true)) :
    l.countP (fun a => p a || q a) = l.countP p + l.countP q := by
  induction l with
  | nil => simp
  | cons a rest ih =>
    have ha := h a (by simp)
    have hrest := ih (fun a ha2 => h a (by simp [ha2]))
    by_cases hp : p a
    · by_cases hq : q a
      · exact absurd ⟨hp, hq⟩ ha
      · simp [List.countP_cons, hp, hq, hrest]
        omega
    · by_cases hq : q a <;> simp [List.countP_cons, hp, hq, hrest] <;> omega

/-! ### C9: the two eligibility tests agree -/

/-- C9: the eligibility test applied inline by the Sample Builder
(`calcDistSamplesEligible`, the two `continue` guards of
`calcDistSamples`) is extensionally equal to `validBarcodeMapping`, the
predicate used by the Pair Statistics Builder: for every contig length,
read-pair count and threshold configuration an observation qualifies in
one iff it qualifies in the other, namely iff `min_reads ≤ pairs` and
`2 * end_length ≤ contigLength`. -/
theorem calcDistSamples_eligibility_agrees (contigLength : Nat) (pairs : Int)
    (params : ArcsParams) :
    calcDistSamplesEligible contigLength pairs params
      = validBarcodeMapping contigLength pairs params
    ∧ (validBarcodeMapping contigLength pairs params = true ↔
        params.min_reads ≤ pairs ∧ 2 * params.end_length ≤ contigLength) := by
  refine ⟨rfl, ?_⟩
  by_cases h1 : pairs < params.min_reads <;>
    by_cases h2 : contigLength < 2 * params.end_length <;>
      simp [validBarcodeMapping, h1, h2] <;> omega

/-! ### C4: soft failure on empty index or zero union -/

/-- C4: `estimateDistance` returns `success = false` together with the
zero-valued estimate (`minDist = 0`, `maxDist = 0`, `jaccard = 0`)
whenever the calibration index is empty, regardless of the pair's
statistics, and likewise whenever the pair record's `barcodesUnion` is 0;
in both cases it returns before any quantile computation. -/
theorem estimateDistance_soft_failure (rec : PairRecord) (jtd : JaccardToDist)
    (params : ArcsParams) :
    (jtd = [] → estimateDistance rec jtd params =
      ({ minDist := 0, maxDist := 0, jaccard := 0 }, false)) ∧
    (rec.barcodesUnion = 0 → estimateDistance rec jtd params =
      ({ minDist := 0, maxDist := 0, jaccard := 0 }, false)) := by
  constructor
  · rintro rfl
    rfl
  · intro h
    by_cases he : jtd.isEmpty <;> simp [estimateDistance, he, h] <;> rfl

/-- Witness for C4: both soft-failure cases at concrete inputs. -/
theorem estimateDistance_soft_failure_witness :
    estimateDistance recC3 [] paramsEx =
      ({ minDist := 0, maxDist := 0, jaccard := 0 }, false) ∧
    estimateDistance {} jtdC3 paramsEx =
      ({ minDist := 0, maxDist := 0, jaccard := 0 }, false) :=
  ⟨(estimateDistance_soft_failure recC3 [] paramsEx).1 rfl,
   (estimateDistance_soft_failure {} jtdC3 paramsEx).2 rfl⟩

/-! ### C3: the empty-window case is not handled -/

/-- C3: contrary to the claim, when the symmetric `±dist_bin_size` range
query around the pair's Jaccard score yields zero calibration samples,
`estimateDistance` does not report failure: past the two initial guards
the success flag is unconditionally `true`, and the 1st/99th percentiles
of the empty distance list are still computed (in the C++ code `quantile`
is applied to an empty range, which has no defined quantile).  At this
concrete input the pair has `barcodesUnion = 1 > 0`, the index is
nonempty, the window around Jaccard score 0 contains no sample (the only
key is 9/10, the half-width 1/10), and the function returns success =
`true` with a degenerate zero estimate. -/
theorem estimateDistance_empty_window_returns_true :
    estimateDistance recC3 jtdC3 paramsEx =
      ({ minDist := 0, maxDist := 0, jaccard := 0 }, true) := by
  have hwin : closestKeys jtdC3 ((recC3.barcodesIntersect : ℚ) / (recC3.barcodesUnion : ℚ))
      paramsEx.dist_bin_size = [] := by
    simp [closestKeys, jtdC3, recC3, paramsEx, jaccardKey, sampleC3]
    norm_num
  simp [estimateDistance, jtdC3, recC3, hwin, quantile]
  norm_num [paramsEx, jaccardKey, sampleC3, closestKeys]

/-! ### C2: ties are dropped by the calibration index -/

/-- C2: counterexample.  Two samples share the Jaccard key 1/2; the index
built from them retains only the first (`std::map::insert` is a no-op on
a duplicate key), so its size differs from the number of input samples,
contradicting the claim that every sample is retained. -/
theorem buildJaccardToDist_drops_ties :
    (buildJaccardToDist dsC2).length ≠ dsC2.length := by
  simp [buildJaccardToDist, dsC2, jinsert, jaccardKey]

theorem jinsert_lt (l : JaccardToDist) (k k' : ℚ) (v v' : DistSample)
    (rest : List (ℚ × DistSample)) (h1 : k < k') :
    jinsert ((k', v') :: rest) k v = (k, v) :: (k', v') :: rest := by
  simp [jinsert, h1]

theorem jinsert_dup (k : ℚ) (v v' : DistSample) (rest : List (ℚ × DistSample)) :
    jinsert ((k, v') :: rest) k v = (k, v') :: rest := by
  simp [jinsert]

theorem jinsert_gt (l : JaccardToDist) (k k' : ℚ) (v v' : DistSample)
    (rest : List (ℚ × DistSample)) (h1 : k' < k) :
    jinsert ((k', v') :: rest) k v = (k', v') :: jinsert rest k v := by
  have h2 : ¬ k < k' := not_lt_of_gt h1
  have h3 : ¬ k = k' := ne_of_gt h1
  simp [jinsert, h2, h3]

theorem jinsert_keys_mem (l : JaccardToDist) (k : ℚ) (v : DistSample) (a : ℚ) :
    a ∈ (jinsert l k v).map Prod.fst ↔ a = k ∨ a ∈ l.map Prod.fst := by
  induction l with
  | nil => simp [jinsert]
  | cons kv rest ih =>
    obtain ⟨k', v'⟩ := kv
    rcases lt_trichotomy k k' with h1 | h1 | h1
    · rw [jinsert_lt rest k k' v v' rest h1]
      simp
    · subst h1
      rw [jinsert_dup k v v' rest]
      simp
    · rw [jinsert_gt rest k k' v v' rest h1]
      simp only [List.map_cons, List.mem_cons, ih]
      tauto

theorem jinsert_sorted (l : JaccardToDist) (k : ℚ) (v : DistSample)
    (h : (l.map Prod.fst).Pairwise (fun a b => a < b)) :
    ((jinsert l k v).map Prod.fst).Pairwise (fun a b => a < b) := by
  induction l with
  | nil => simp [jinsert]
  | cons kv rest ih =>
    obtain ⟨k', v'⟩ := kv
    simp only [List.map_cons, List.pairwise_cons] at h
    rcases lt_trichotomy k k' with h1 | h1 | h1
    · rw [jinsert_lt rest k k' v v' rest h1]
      simp only [List.map_cons, List.pairwise_cons]
      refine ⟨?_, h.1, h.2⟩
      intro a ha
      rcases List.mem_cons.1 ha with rfl | ha
      · exact h1
      · exact lt_trans h1 (h.1 a ha)
    · subst h1
      rw [jinsert_dup k v v' rest]
      simp only [List.map_cons, List.pairwise_cons]
      exact ⟨h.1, h.2⟩
    · rw [jinsert_gt rest k k' v v' rest h1]
      simp only [List.map_cons, List.pairwise_cons]
      refine ⟨?_, ih h.2⟩
      intro a ha
      rcases (jinsert_keys_mem rest k v a).1 ha with rfl | ha
      · exact h1
      · exact h.1 a ha

theorem buildJaccardToDist_aux (ds : DistSampleMap) (acc : JaccardToDist)
    (hs : (acc.map Prod.fst).Pairwise (fun a b => a < b)) :
    ((ds.foldl (fun m e => jinsert m (jaccardKey e.2) e.2) acc).map Prod.fst).Pairwise
        (fun a b => a < b)
    ∧ ∀ a, (a ∈ (ds.foldl (fun m e => jinsert m (jaccardKey e.2) e.2) acc).map Prod.fst ↔
        a ∈ acc.map Prod.fst ∨ a ∈ ds.map (fun e => jaccardKey e.2)) := by
  induction ds generalizing acc with
  | nil => exact ⟨by simpa using hs, fun a => by simp⟩
  | cons e rest ih =>
    have hstep := jinsert_sorted acc (jaccardKey e.2) e.2 hs
    obtain ⟨hsort, hmem⟩ := ih (jinsert acc (jaccardKey e.2) e.2) hstep
    rw [List.foldl_cons]
    refine ⟨hsort, fun a => ?_⟩
    rw [hmem a, jinsert_keys_mem]
    simp only [List.map_cons, List.mem_cons]
    tauto

/-- C2 (amended): the Calibration Index retains exactly one sample per
distinct Jaccard key — an insertion whose key is already present is a
no-op, as for `std::map::insert` — so the number of entries in the index
equals the number of distinct Jaccard keys among the input samples (which
equals the number of samples only when no two samples share a key).  The
hypothesis restricts to samples with positive union, the domain on which
the exact-rational model of the C++ `double` key is faithful (a zero
union would give a NaN key). -/
theorem buildJaccardToDist_length_eq_distinct_keys (ds : DistSampleMap)
    (hU : ∀ e ∈ ds, 0 < e.2.barcodesUnion) :
    (buildJaccardToDist ds).length = ((ds.map (fun e => jaccardKey e.2)).dedup).length := by
  obtain ⟨hsort, hmem⟩ := buildJaccardToDist_aux ds [] (by simp)
  have hnd : ((buildJaccardToDist ds).map Prod.fst).Nodup :=
    hsort.imp (fun h => ne_of_lt h)
  have hnd2 : ((ds.map (fun e => jaccardKey e.2)).dedup).Nodup := List.nodup_dedup _
  have hperm : ((buildJaccardToDist ds).map Prod.fst).Perm
      ((ds.map (fun e => jaccardKey e.2)).dedup) := by
    rw [List.perm_ext_iff_of_nodup hnd hnd2]
    intro a
    rw [List.mem_dedup]
    simpa using hmem a
  have hlen : (buildJaccardToDist ds).length
      = ((buildJaccardToDist ds).map Prod.fst).length := by simp
  rw [hlen]
  exact hperm.length_eq

/-- Witness for the amended C2 at a concrete two-sample input with
distinct keys. -/
theorem buildJaccardToDist_length_eq_distinct_keys_witness :
    (buildJaccardToDist dsC2W).length = ((dsC2W.map (fun e => jaccardKey e.2)).dedup).length :=
  buildJaccardToDist_length_eq_distinct_keys dsC2W (by decide)

/-! ### Sample Builder: per-step and per-barcode counting lemmas -/

theorem calcDistSamplesEligible_eq (l : Nat) (p : Int) (params : ArcsParams) :
    calcDistSamplesEligible l p params =
      (decide (params.min_reads ≤ p) && !decide (l < 2 * params.end_length)) := by
  rcases lt_or_ge p params.min_reads with h1 | h1
  · simp [calcDistSamplesEligible, h1, not_le.mpr h1]
  · rcases Nat.lt_or_ge l (2 * params.end_length) with h2 | h2
    · simp [calcDistSamplesEligible, not_lt.mpr h1, h1, h2]
    · simp [calcDistSamplesEligible, not_lt.mpr h1, h1, not_lt.mpr h2, h2]

theorem qualEnd_eq (ctl : ContigToLength) (params : ArcsParams) (sm : ScafMap) (c : String)
    (h : Bool) :
    qualEnd ctl params sm c h =
      (endHasMinReads params sm c h && !decide (ctl c < 2 * params.end_length)) := by
  unfold qualEnd endHasMinReads
  cases hl : lookupA sm (c, h) <;> simp [calcDistSamplesEligible_eq]

theorem applyObs_I (ctl : ContigToLength) (params : ArcsParams) (sm : ScafMap)
    (o : CI × Int) (ds : DistSample) :
    (applyObs ctl params sm o ds).barcodesIntersect =
      ds.barcodesIntersect +
        (if endHasMinReads params sm o.1.1 (!o.1.2) && o.1.2 then 1 else 0) := by
  obtain ⟨⟨c0, h⟩, p⟩ := o
  cases h
  · cases hfo : endHasMinReads params sm c0 true <;> simp [applyObs, hfo]
  · cases hfo : endHasMinReads params sm c0 false <;> simp [applyObs, hfo]

theorem applyObs_U (ctl : ContigToLength) (params : ArcsParams) (sm : ScafMap)
    (o : CI × Int) (ds : DistSample) :
    (applyObs ctl params sm o ds).barcodesUnion =
      ds.barcodesUnion +
        (if o.1.2 || !endHasMinReads params sm o.1.1 (!o.1.2) then 1 else 0) := by
  obtain ⟨⟨c0, h⟩, p⟩ := o
  cases h
  · cases hfo : endHasMinReads params sm c0 true <;> simp [applyObs, hfo]
  · cases hfo : endHasMinReads params sm c0 false <;> simp [applyObs, hfo]

theorem applyObs_H (ctl : ContigToLength) (params : ArcsParams) (sm : ScafMap)
    (o : CI × Int) (ds : DistSample) :
    (applyObs ctl params sm o ds).barcodesHead =
      ds.barcodesHead + (if o.1.2 then 1 else 0) := by
  obtain ⟨⟨c0, h⟩, p⟩ := o
  cases h
  · cases hfo : endHasMinReads params sm c0 true <;> simp [applyObs, hfo]
  · cases hfo : endHasMinReads params sm c0 false <;> simp [applyObs, hfo]

theorem applyObs_T (ctl : ContigToLength) (params : ArcsParams) (sm : ScafMap)
    (o : CI × Int) (ds : DistSample) :
    (applyObs ctl params sm o ds).barcodesTail =
      ds.barcodesTail + (if o.1.2 then 0 else 1) := by
  obtain ⟨⟨c0, h⟩, p⟩ := o
  cases h
  · cases hfo : endHasMinReads params sm c0 true <;> simp [applyObs, hfo]
  · cases hfo : endHasMinReads params sm c0 false <;> simp [applyObs, hfo]

theorem applyObs_dist (ctl : ContigToLength) (params : ArcsParams) (sm : ScafMap)
    (o : CI × Int) (ds : DistSample) :
    (applyObs ctl params sm o ds).distance = ctl o.1.1 - 2 * params.end_length := by
  obtain ⟨⟨c0, h⟩, p⟩ := o
  cases h
  · cases hfo : endHasMinReads params sm c0 true <;> simp [applyObs, hfo]
  · cases hfo : endHasMinReads params sm c0 false <;> simp [applyObs, hfo]

theorem lookupA_processObs (ctl : ContigToLength) (params : ArcsParams) (sm : ScafMap)
    (m : DistSampleMap) (o : CI × Int) (c : String) :
    lookupA (processObs ctl params sm m o) c =
      if calcDistSamplesEligible (ctl o.1.1) o.2 params && decide (o.1.1 = c)
      then some (applyObs ctl params sm o ((lookupA m c).getD {}))
      else lookupA m c := by
  by_cases he : calcDistSamplesEligible (ctl o.1.1) o.2 params
  · by_cases hc : o.1.1 = c
    · rw [hc] at he
      simp [processObs, he, lookupA_updA, hc]
    · have hc' : ¬ c = o.1.1 := fun hh => hc hh.symm
      simp [processObs, he, hc, hc', lookupA_updA]
  · simp [processObs, he]

theorem sampleI_processObs (ctl : ContigToLength) (params : ArcsParams) (sm : ScafMap)
    (m : DistSampleMap) (o : CI × Int) (c : String) :
    sampleI (processObs ctl params sm m o) c =
      sampleI m c +
        (if decide (o.1 = (c, true)) &&
            (calcDistSamplesEligible (ctl c) o.2 params && endHasMinReads params sm c false)
         then 1 else 0) := by
  unfold sampleI
  rw [lookupA_processObs]
  obtain ⟨⟨c0, h⟩, p⟩ := o
  by_cases he : calcDistSamplesEligible (ctl c0) p params
  · by_cases hc : c0 = c
    · subst hc
      cases h <;> simp [he, applyObs_I]
    · have hne : ¬ ((c0, h) = (c, true)) := by simp [hc]
      simp [he, hc, hne]
  · by_cases hc : c0 = c
    · subst hc
      have hne : ¬ (calcDistSamplesEligible (ctl c0) p params = true ∧ True) := by simp [he]
      cases h <;> simp [he]
    · simp [he, hc]

theorem sampleU_processObs (ctl : ContigToLength) (params : ArcsParams) (sm : ScafMap)
    (m : DistSampleMap) (o : CI × Int) (c : String) :
    sampleU (processObs ctl params sm m o) c =
      sampleU m c +
        (if (decide (o.1 = (c, true)) && calcDistSamplesEligible (ctl c) o.2 params) ||
            (decide (o.1 = (c, false)) &&
              (calcDistSamplesEligible (ctl c) o.2 params && !endHasMinReads params sm c true))
         then 1 else 0) := by
  unfold sampleU
  rw [lookupA_processObs]
  obtain ⟨⟨c0, h⟩, p⟩ := o
  by_cases he : calcDistSamplesEligible (ctl c0) p params
  · by_cases hc : c0 = c
    · subst hc
      cases h <;> cases hfo : endHasMinReads params sm c0 true <;>
        simp [he, applyObs_U, hfo]
    · have hne1 : ¬ ((c0, h) = (c, true)) := by simp [hc]
      have hne2 : ¬ ((c0, h) = (c, false)) := by simp [hc]
      simp [he, hc, hne1, hne2]
  · by_cases hc : c0 = c
    · subst hc
      cases h <;> simp [he]
    · simp [he, hc]

theorem sampleH_processObs (ctl : ContigToLength) (params : ArcsParams) (sm : ScafMap)
    (m : DistSampleMap) (o : CI × Int) (c : String) :
    sampleH (processObs ctl params sm m o) c =
      sampleH m c +
        (if decide (o.1 = (c, true)) && calcDistSamplesEligible (ctl c) o.2 params
         then 1 else 0) := by
  unfold sampleH
  rw [lookupA_processObs]
  obtain ⟨⟨c0, h⟩, p⟩ := o
  by_cases he : calcDistSamplesEligible (ctl c0) p params
  · by_cases hc : c0 = c
    · subst hc
      cases h <;> simp [he, applyObs_H]
    · have hne : ¬ ((c0, h) = (c, true)) := by simp [hc]
      simp [he, hc, hne]
  · by_cases hc : c0 = c
    · subst hc
      cases h <;> simp [he]
    · simp [he, hc]

theorem sampleT_processObs (ctl : ContigToLength) (params : ArcsParams) (sm : ScafMap)
    (m : DistSampleMap) (o : CI × Int) (c : String) :
    sampleT (processObs ctl params sm m o) c =
      sampleT m c +
        (if decide (o.1 = (c, false)) && calcDistSamplesEligible (ctl c) o.2 params
         then 1 else 0) := by
  unfold sampleT
  rw [lookupA_processObs]
  obtain ⟨⟨c0, h⟩, p⟩ := o
  by_cases he : calcDistSamplesEligible (ctl c0) p params
  · by_cases hc : c0 = c
    · subst hc
      cases h <;> simp [he, applyObs_T]
    · have hne : ¬ ((c0, h) = (c, false)) := by simp [hc]
      simp [he, hc, hne]
  · by_cases hc : c0 = c
    · subst hc
      cases h <;> simp [he]
    · simp [he, hc]

theorem sampleI_barcode (ctl : ContigToLength) (params : ArcsParams) (sm : ScafMap)
    (hnd : (sm.map Prod.fst).Nodup) (m : DistSampleMap) (c : String) :
    sampleI (sm.foldl (processObs ctl params sm) m) c =
      sampleI m c +
        (if qualEnd ctl params sm c true && endHasMinReads params sm c false
         then 1 else 0) := by
  rw [foldl_obs_add (processObs ctl params sm) (fun mm => sampleI mm c)
      (fun o => if decide (o.1 = (c, true)) &&
          (calcDistSamplesEligible (ctl c) o.2 params && endHasMinReads params sm c false)
        then 1 else 0)
      (fun s a => sampleI_processObs ctl params sm s a c) sm m,
    map_ite_sum_eq_countP]
  congr 1
  rw [countP_key sm hnd (c, true)
      (fun p => calcDistSamplesEligible (ctl c) p params && endHasMinReads params sm c false)]
  unfold qualEnd
  cases hl : lookupA sm (c, true) <;> simp

theorem sampleU_barcode (ctl : ContigToLength) (params : ArcsParams) (sm : ScafMap)
    (hnd : (sm.map Prod.fst).Nodup) (m : DistSampleMap) (c : String) :
    sampleU (sm.foldl (processObs ctl params sm) m) c =
      sampleU m c + (if qualEnd ctl params sm c true then 1 else 0) +
        (if qualEnd ctl params sm c false && !endHasMinReads params sm c true
         then 1 else 0) := by
  rw [foldl_obs_add (processObs ctl params sm) (fun mm => sampleU mm c)
      (fun o => if (decide (o.1 = (c, true)) && calcDistSamplesEligible (ctl c) o.2 params) ||
          (decide (o.1 = (c, false)) &&
            (calcDistSamplesEligible (ctl c) o.2 params && !endHasMinReads params sm c true))
        then 1 else 0)
      (fun s a => sampleU_processObs ctl params sm s a c) sm m,
    map_ite_sum_eq_countP]
  rw [countP_disjoint_or sm _ _ (by
    intro o ho
    simp only [Bool.and_eq_true, decide_eq_true_eq]
    rintro ⟨⟨h1, -⟩, ⟨h2, -⟩⟩
    rw [h1] at h2
    exact (Bool.true_eq_false ▸ congrArg Prod.snd h2 : False))]
  rw [countP_key sm hnd (c, true) (fun p => calcDistSamplesEligible (ctl c) p params),
    countP_key sm hnd (c, false)
      (fun p => calcDistSamplesEligible (ctl c) p params && !endHasMinReads params sm c true)]
  unfold qualEnd
  cases hl1 : lookupA sm (c, true) <;> cases hl2 : lookupA sm (c, false) <;> simp <;> omega

theorem sampleH_barcode (ctl : ContigToLength) (params : ArcsParams) (sm : ScafMap)
    (hnd : (sm.map Prod.fst).Nodup) (m : DistSampleMap) (c : String) :
    sampleH (sm.foldl (processObs ctl params sm) m) c =
      sampleH m c + (if qualEnd ctl params sm c true then 1 else 0) := by
  rw [foldl_obs_add (processObs ctl params sm) (fun mm => sampleH mm c)
      (fun o => if decide (o.1 = (c, true)) && calcDistSamplesEligible (ctl c) o.2 params
        then 1 else 0)
      (fun s a => sampleH_processObs ctl params sm s a c) sm m,
    map_ite_sum_eq_countP]
  congr 1
  rw [countP_key sm hnd (c, true) (fun p => calcDistSamplesEligible (ctl c) p params)]
  unfold qualEnd
  cases hl : lookupA sm (c, true) <;> simp

theorem sampleT_barcode (ctl : ContigToLength) (params : ArcsParams) (sm : ScafMap)
    (hnd : (sm.map Prod.fst).Nodup) (m : DistSampleMap) (c : String) :
    sampleT (sm.foldl (processObs ctl params sm) m) c =
      sampleT m c + (if qualEnd ctl params sm c false then 1 else 0) := by
  rw [foldl_obs_add (processObs ctl params sm) (fun mm => sampleT mm c)
      (fun o => if decide (o.1 = (c, false)) && calcDistSamplesEligible (ctl c) o.2 params
        then 1 else 0)
      (fun s a => sampleT_processObs ctl params sm s a c) sm m,
    map_ite_sum_eq_countP]
  congr 1
  rw [countP_key sm hnd (c, false) (fun p => calcDistSamplesEligible (ctl c) p params)]
  unfold qualEnd
  cases hl : lookupA sm (c, false) <;> simp

/-! ### Sample Builder: entry existence and distance -/

theorem processObs_entry_distance (ctl : ContigToLength) (params : ArcsParams) (sm : ScafMap)
    (m : DistSampleMap) (o : CI × Int) (c : String)
    (h : ∃ ds, lookupA m c = some ds ∧ ds.distance = ctl c - 2 * params.end_length) :
    ∃ ds, lookupA (processObs ctl params sm m o) c = some ds ∧
      ds.distance = ctl c - 2 * params.end_length := by
  obtain ⟨ds, hds, hdist⟩ := h
  rw [lookupA_processObs]
  by_cases hcond : (calcDistSamplesEligible (ctl o.1.1) o.2 params && decide (o.1.1 = c)) = true
  · refine ⟨applyObs ctl params sm o ((lookupA m c).getD {}), by simp [hcond], ?_⟩
    have hc : o.1.1 = c := by
      have h2 : calcDistSamplesEligible (ctl o.1.1) o.2 params = true ∧ o.1.1 = c := by
        simpa using hcond
      exact h2.2
    rw [applyObs_dist, hc]
  · exact ⟨ds, by simp [hcond, hds], hdist⟩

theorem processObs_entry_create (ctl : ContigToLength) (params : ArcsParams) (sm : ScafMap)
    (m : DistSampleMap) (o : CI × Int) (c : String)
    (he : calcDistSamplesEligible (ctl o.1.1) o.2 params = true) (hc : o.1.1 = c) :
    ∃ ds, lookupA (processObs ctl params sm m o) c = some ds ∧
      ds.distance = ctl c - 2 * params.end_length := by
  rw [lookupA_processObs]
  have hcond : (calcDistSamplesEligible (ctl o.1.1) o.2 params && decide (o.1.1 = c)) = true := by
    rw [Bool.and_eq_true]
    exact ⟨he, decide_eq_true hc⟩
  refine ⟨applyObs ctl params sm o ((lookupA m c).getD {}), by simp [hcond], ?_⟩
  rw [applyObs_dist, hc]

theorem fold_entry_untouched (ctl : ContigToLength) (params : ArcsParams) (sm : ScafMap)
    (l : List (CI × Int)) (m : DistSampleMap) (c : String)
    (h : ∀ o ∈ l, ¬(calcDistSamplesEligible (ctl o.1.1) o.2 params = true ∧ o.1.1 = c)) :
    lookupA (l.foldl (processObs ctl params sm) m) c = lookupA m c := by
  induction l generalizing m with
  | nil => rfl
  | cons o rest ih =>
    rw [List.foldl_cons, ih _ (fun o2 ho2 => h o2 (by simp [ho2]))]
    rw [lookupA_processObs]
    have hcond : ¬ (calcDistSamplesEligible (ctl o.1.1) o.2 params && decide (o.1.1 = c)) = true := by
      simp only [Bool.and_eq_true, decide_eq_true_eq]
      exact fun hh => h o (by simp) hh
    simp [hcond]

theorem fold_entry_touched (ctl : ContigToLength) (params : ArcsParams) (sm : ScafMap)
    (l : List (CI × Int)) (m : DistSampleMap) (c : String)
    (h : ∃ o ∈ l, calcDistSamplesEligible (ctl o.1.1) o.2 params = true ∧ o.1.1 = c) :
    ∃ ds, lookupA (l.foldl (processObs ctl params sm) m) c = some ds ∧
      ds.distance = ctl c - 2 * params.end_length := by
  induction l generalizing m with
  | nil => simp at h
  | cons o rest ih =>
    rw [List.foldl_cons]
    by_cases ho : calcDistSamplesEligible (ctl o.1.1) o.2 params = true ∧ o.1.1 = c
    · exact foldl_preserve (processObs ctl params sm)
        (fun mm => ∃ ds, lookupA mm c = some ds ∧ ds.distance = ctl c - 2 * params.end_length)
        (fun s a hs => processObs_entry_distance ctl params sm s a c hs) rest _
        (processObs_entry_create ctl params sm m o c ho.1 ho.2)
    · obtain ⟨o2, ho2, hq⟩ := h
      rcases List.mem_cons.1 ho2 with rfl | ho2
      · exact absurd hq ho
      · exact ih _ ⟨o2, ho2, hq⟩

theorem qualEnd_touching (ctl : ContigToLength) (params : ArcsParams) (sm : ScafMap)
    (c : String)
    (h : (qualEnd ctl params sm c true || qualEnd ctl params sm c false) = true) :
    ∃ o ∈ sm, calcDistSamplesEligible (ctl o.1.1) o.2 params = true ∧ o.1.1 = c := by
  have h2 : qualEnd ctl params sm c true = true ∨ qualEnd ctl params sm c false = true := by
    simpa using h
  rcases h2 with hq | hq
  · revert hq
    unfold qualEnd
    cases hl : lookupA sm (c, true) with
    | none => simp
    | some p =>
      intro hq
      exact ⟨((c, true), p), lookupA_mem hl, hq, rfl⟩
  · revert hq
    unfold qualEnd
    cases hl : lookupA sm (c, false) with
    | none => simp
    | some p =>
      intro hq
      exact ⟨((c, false), p), lookupA_mem hl, hq, rfl⟩

theorem qualEnd_not_touching (ctl : ContigToLength) (params : ArcsParams) (sm : ScafMap)
    (c : String) (hnd : (sm.map Prod.fst).Nodup)
    (h : ¬ (qualEnd ctl params sm c true || qualEnd ctl params sm c false) = true) :
    ∀ o ∈ sm, ¬(calcDistSamplesEligible (ctl o.1.1) o.2 params = true ∧ o.1.1 = c) := by
  rintro ⟨⟨c0, hb⟩, p⟩ ho ⟨helig, hcc⟩
  apply h
  have hc0 : c0 = c := hcc
  subst hc0
  have hl : lookupA sm (c0, hb) = some p := lookupA_eq_some_of_mem hnd ho
  simp only [Bool.or_eq_true]
  cases hb
  · right
    unfold qualEnd
    rw [hl]
    exact helig
  · left
    unfold qualEnd
    rw [hl]
    exact helig

/-! ### Sample Builder: the per-sample invariant -/

theorem foldl_preserve_mem {σ α : Type} (step : σ → α → σ) (P : σ → Prop) (l : List α)
    (h : ∀ s, ∀ a ∈ l, P s → P (step s a)) (s : σ) (hs : P s) : P (l.foldl step s) := by
  induction l generalizing s with
  | nil => exact hs
  | cons a rest ih =>
    exact ih (fun s2 a2 ha2 => h s2 a2 (by simp [ha2])) _ (h s a (by simp) hs)

theorem processBarcode_invariant (ctl : ContigToLength) (params : ArcsParams)
    (mult : IndexMultMap) (b : String × ScafMap) (hnd : (b.2.map Prod.fst).Nodup)
    (m : DistSampleMap) (hInv : sampleInvariant ctl params m) :
    sampleInvariant ctl params (processBarcode ctl params mult m b) := by
  unfold processBarcode
  by_cases hmult : (mult b.1 < params.min_mult || params.max_mult < mult b.1) = true
  · simpa [hmult] using hInv
  · simp only [Bool.not_eq_true] at hmult
    simp only [hmult, Bool.false_eq_true, if_false]
    constructor
    · exact foldl_preserve (processObs ctl params b.2) (fun mm => (mm.map Prod.fst).Nodup)
        (fun s a hs => by
          unfold processObs
          split
          · exact updA_keys_nodup _ _ _ _ hs
          · exact hs) b.2 m hInv.1
    · intro c ds hds
      by_cases hq : (qualEnd ctl params b.2 c true || qualEnd ctl params b.2 c false) = true
      · obtain ⟨ds', hds', hdist⟩ :=
          fold_entry_touched ctl params b.2 b.2 m c (qualEnd_touching ctl params b.2 c hq)
        rw [hds] at hds'
        obtain rfl : ds = ds' := Option.some.inj hds'
        have hI : sampleI (b.2.foldl (processObs ctl params b.2) m) c = ds.barcodesIntersect := by
          unfold sampleI; rw [hds]; rfl
        have hU : sampleU (b.2.foldl (processObs ctl params b.2) m) c = ds.barcodesUnion := by
          unfold sampleU; rw [hds]; rfl
        have hH : sampleH (b.2.foldl (processObs ctl params b.2) m) c = ds.barcodesHead := by
          unfold sampleH; rw [hds]; rfl
        have hT : sampleT (b.2.foldl (processObs ctl params b.2) m) c = ds.barcodesTail := by
          unfold sampleT; rw [hds]; rfl
        have hIeq := sampleI_barcode ctl params b.2 hnd m c
        have hUeq := sampleU_barcode ctl params b.2 hnd m c
        have hHeq := sampleH_barcode ctl params b.2 hnd m c
        have hTeq := sampleT_barcode ctl params b.2 hnd m c
        rw [hI] at hIeq
        rw [hU] at hUeq
        rw [hH] at hHeq
        rw [hT] at hTeq
        simp only [qualEnd_eq] at hIeq hUeq hHeq hTeq hq
        have hbase :
            ((lookupA m c).getD {}).barcodesIntersect ≤ ((lookupA m c).getD {}).barcodesUnion ∧
            ((lookupA m c).getD {}).barcodesHead + ((lookupA m c).getD {}).barcodesTail =
              ((lookupA m c).getD {}).barcodesUnion +
                ((lookupA m c).getD {}).barcodesIntersect := by
          cases hb2 : lookupA m c with
          | none => simp
          | some ds0 =>
            have hp := hInv.2 c ds0 hb2
            exact ⟨hp.2.1, by simpa using hp.2.2.2⟩
        have harith : ∀ A B L : Bool, ((A && !L) || (B && !L)) = true →
            ((if (A && !L) && B then 1 else 0 : Nat) ≤
              (if A && !L then 1 else 0) + (if (B && !L) && !A then 1 else 0)) ∧
            (1 ≤ (if A && !L then 1 else 0) + (if (B && !L) && !A then 1 else 0 : Nat)) ∧
            ((if A && !L then 1 else 0) + (if B && !L then 1 else 0 : Nat) =
              ((if A && !L then 1 else 0) + (if (B && !L) && !A then 1 else 0)) +
                (if (A && !L) && B then 1 else 0)) := by decide
        have hfacts := harith (endHasMinReads params b.2 c true)
          (endHasMinReads params b.2 c false)
          (decide (ctl c < 2 * params.end_length)) hq
        simp only [sampleI, sampleU, sampleH, sampleT] at hIeq hUeq hHeq hTeq
        refine ⟨hdist, ?_, ?_, ?_⟩ <;> omega
      · have huntouched := fold_entry_untouched ctl params b.2 b.2 m c
          (qualEnd_not_touching ctl params b.2 c hnd hq)
        rw [huntouched] at hds
        exact hInv.2 c ds hds

theorem calcDistSamples_invariant (imap : IndexMap) (ctl : ContigToLength)
    (mult : IndexMultMap) (params : ArcsParams)
    (hnd : ∀ b ∈ imap, (b.2.map Prod.fst).Nodup) :
    sampleInvariant ctl params (calcDistSamples imap ctl mult params) := by
  unfold calcDistSamples
  have hbase : sampleInvariant ctl params [] := by
    refine ⟨List.nodup_nil, ?_⟩
    intro c ds h
    simp [lookupA] at h
  exact foldl_preserve_mem (processBarcode ctl params mult) (sampleInvariant ctl params)
    imap (fun s b hb hs => processBarcode_invariant ctl params mult b (hnd b hb) s hs) [] hbase

/-! ### C6: per-barcode counting semantics -/

/-- C6: in the Sample Builder, for every contig (meeting the length
requirement) and every barcode within the multiplicity range, processing
that barcode changes the contig's counters as follows: if the barcode
qualifies (read-pair count ≥ `min_reads`) at both ends of the contig it
contributes exactly one increment to `barcodesIntersect` and exactly one
to `barcodesUnion` (never double-counted, the increment being applied only
on the head observation); if it qualifies at exactly one end it
contributes exactly one increment to `barcodesUnion` and none to
`barcodesIntersect`. -/
theorem calcDistSamples_barcode_counting (ctl : ContigToLength) (params : ArcsParams)
    (mult : IndexMultMap) (b : String × ScafMap)
    (hmult : params.min_mult ≤ mult b.1 ∧ mult b.1 ≤ params.max_mult)
    (hnd : (b.2.map Prod.fst).Nodup) (m : DistSampleMap) (c : String)
    (hlen : 2 * params.end_length ≤ ctl c) :
    sampleI (processBarcode ctl params mult m b) c =
      sampleI m c +
        (if endHasMinReads params b.2 c true && endHasMinReads params b.2 c false
         then 1 else 0) ∧
    sampleU (processBarcode ctl params mult m b) c =
      sampleU m c +
        (if endHasMinReads params b.2 c true || endHasMinReads params b.2 c false
         then 1 else 0) := by
  have hmg : ¬ (mult b.1 < params.min_mult || params.max_mult < mult b.1) = true := by
    simp only [Bool.or_eq_true, decide_eq_true_eq]
    push_neg
    omega
  unfold processBarcode
  simp only [Bool.not_eq_true] at hmg
  simp only [hmg, Bool.false_eq_true, if_false]
  have hL : decide (ctl c < 2 * params.end_length) = false := by
    simp [not_lt.mpr hlen]
  constructor
  · rw [sampleI_barcode ctl params b.2 hnd m c, qualEnd_eq]
    cases hA : endHasMinReads params b.2 c true <;>
      cases hB : endHasMinReads params b.2 c false <;> simp [hL]
  · rw [sampleU_barcode ctl params b.2 hnd m c, qualEnd_eq, qualEnd_eq]
    cases hA : endHasMinReads params b.2 c true <;>
      cases hB : endHasMinReads params b.2 c false <;> simp [hL]

/-- Witness for C6 at one barcode qualifying at both ends of contig `A`. -/
theorem calcDistSamples_barcode_counting_witness :
    (sampleI (processBarcode ctlEx paramsEx multEx [] ("b", smEx)) "A" =
      sampleI [] "A" +
        (if endHasMinReads paramsEx smEx "A" true && endHasMinReads paramsEx smEx "A" false
         then 1 else 0)) ∧
    (sampleU (processBarcode ctlEx paramsEx multEx [] ("b", smEx)) "A" =
      sampleU [] "A" +
        (if endHasMinReads paramsEx smEx "A" true || endHasMinReads paramsEx smEx "A" false
         then 1 else 0)) :=
  calcDistSamples_barcode_counting ctlEx paramsEx multEx ("b", smEx)
    ⟨by decide, by decide⟩ (by decide) [] "A" (by decide)

/-! ### C7: per-sample bounds of the Sample Builder output -/

/-- C7: every calibration sample present in the Sample Builder's output
map satisfies `0 ≤ barcodesIntersect ≤ barcodesUnion` and
`barcodesUnion ≥ 1` (a sample exists only if at least one qualifying
observation was seen), and its distance field equals the contig's length
minus `2 * end_length`. -/
theorem calcDistSamples_sample_bounds (imap : IndexMap) (ctl : ContigToLength)
    (mult : IndexMultMap) (params : ArcsParams)
    (hnd : ∀ b ∈ imap, (b.2.map Prod.fst).Nodup) (c : String) (ds : DistSample)
    (hmem : (c, ds) ∈ calcDistSamples imap ctl mult params) :
    0 ≤ ds.barcodesIntersect ∧ ds.barcodesIntersect ≤ ds.barcodesUnion ∧
    1 ≤ ds.barcodesUnion ∧ ds.distance = ctl c - 2 * params.end_length := by
  have hInv := calcDistSamples_invariant imap ctl mult params hnd
  have hl := lookupA_eq_some_of_mem hInv.1 hmem
  have hprops := hInv.2 c ds hl
  exact ⟨Nat.zero_le _, hprops.2.1, hprops.2.2.1, hprops.1⟩

/-- Witness for C7 at the sample produced by `imapEx`. -/
theorem calcDistSamples_sample_bounds_witness :
    0 ≤ dsEx.barcodesIntersect ∧ dsEx.barcodesIntersect ≤ dsEx.barcodesUnion ∧
    1 ≤ dsEx.barcodesUnion ∧ dsEx.distance = ctlEx "A" - 2 * paramsEx.end_length :=
  calcDistSamples_sample_bounds imapEx ctlEx multEx paramsEx (by decide) "A" dsEx (by decide)

/-! ### C10: the head/tail versus union/intersect identity -/

/-- C10: every calibration sample in the Sample Builder's output satisfies
`barcodesHead + barcodesTail = barcodesUnion + barcodesIntersect`: each
qualifying barcode adds the same amount (2 for both-end barcodes, 1 for
single-end barcodes) to the two sides, so the head/tail counters and the
union/intersect counters stay consistent even though the code maintains
them by separate increments. -/
theorem calcDistSamples_counter_identity (imap : IndexMap) (ctl : ContigToLength)
    (mult : IndexMultMap) (params : ArcsParams)
    (hnd : ∀ b ∈ imap, (b.2.map Prod.fst).Nodup) (c : String) (ds : DistSample)
    (hmem : (c, ds) ∈ calcDistSamples imap ctl mult params) :
    ds.barcodesHead + ds.barcodesTail = ds.barcodesUnion + ds.barcodesIntersect := by
  have hInv := calcDistSamples_invariant imap ctl mult params hnd
  have hl := lookupA_eq_some_of_mem hInv.1 hmem
  exact (hInv.2 c ds hl).2.2.2

/-- Witness for C10 at the sample produced by `imapEx`. -/
theorem calcDistSamples_counter_identity_witness :
    dsEx.barcodesHead + dsEx.barcodesTail = dsEx.barcodesUnion + dsEx.barcodesIntersect :=
  calcDistSamples_counter_identity imapEx ctlEx multEx paramsEx (by decide) "A" dsEx (by decide)

/-! ### Pair Statistics Builder: per-step and per-barcode lemmas -/

theorem orient_flags : ∀ (h1 h2 : Bool) (i : Fin 4),
    orient h1 h2 = i ↔ (h1 = flagOf1 i ∧ h2 = flagOf2 i) := by decide

theorem bumpArr_I (arr : PairArr) (i j : Fin 4) :
    (bumpArr arr i j).barcodesIntersect =
      (arr j).barcodesIntersect + (if j = i then 1 else 0) := by
  unfold bumpArr
  by_cases h : j = i
  · subst h
    simp [Function.update_same]
  · simp [h, Function.update_noteq h]

theorem pmGetI_pmBump (pm : PairMap) (cp cp' : PairKey) (i i' : Fin 4) :
    pmGetI (pmBump pm cp i) cp' i' =
      pmGetI pm cp' i' + (if cp' = cp ∧ i' = i then 1 else 0) := by
  unfold pmGetI pmBump
  rw [lookupA_updA]
  by_cases h : cp' = cp
  · by_cases h2 : i' = i <;> simp [h, h2, bumpArr_I]
  · simp [h]

theorem sideGet_sideBump (t : BarcodeCountMap) (k k' : CI) :
    sideGet (sideBump t k) k' = sideGet t k' + (if k' = k then 1 else 0) := by
  unfold sideGet sideBump
  rw [lookupA_updA]
  by_cases h : k' = k <;> simp [h]

theorem pmGetI_procInner (ctl : ContigToLength) (params : ArcsParams) (e1 : CI × Int)
    (pm : PairMap) (e2 : CI × Int) (cp : PairKey) (i : Fin 4) :
    pmGetI (procInner ctl params e1 pm e2) cp i =
      pmGetI pm cp i +
        (if validBarcodeMapping (ctl e2.1.1) e2.2 params &&
            (!decide (e2.1.1.data < e1.1.1.data) &&
              (decide ((e1.1.1, e2.1.1) = cp) && decide (orient e1.1.2 e2.1.2 = i)))
         then 1 else 0) := by
  unfold procInner
  by_cases hv : validBarcodeMapping (ctl e2.1.1) e2.2 params
  · by_cases hlt : e2.1.1.data < e1.1.1.data
    · simp [hv, hlt]
    · rw [if_neg (by simp [hv, hlt]), if_neg (by simp [hlt]), pmGetI_pmBump]
      congr 1
      by_cases hcp : cp = (e1.1.1, e2.1.1)
      · by_cases hor : i = orient e1.1.2 e2.1.2
        · simp [hv, hlt, hcp, hor]
        · have hor2 : ¬ orient e1.1.2 e2.1.2 = i := fun hh => hor hh.symm
          simp [hcp, hor, hor2]
      · have hcp2 : ¬ (e1.1.1, e2.1.1) = cp := fun hh => hcp hh.symm
        simp [hcp, hcp2]
  · simp [hv]

theorem innerCond_eq (ctl : ContigToLength) (params : ArcsParams) (e1 e2 : CI × Int)
    (cp : PairKey) (i : Fin 4) :
    (validBarcodeMapping (ctl e2.1.1) e2.2 params &&
      (!decide (e2.1.1.data < e1.1.1.data) &&
        (decide ((e1.1.1, e2.1.1) = cp) && decide (orient e1.1.2 e2.1.2 = i)))) =
    (decide (e2.1 = (cp.2, flagOf2 i)) &&
      (validBarcodeMapping (ctl cp.2) e2.2 params &&
        (!decide (cp.2.data < e1.1.1.data) && decide (e1.1 = (cp.1, flagOf1 i))))) := by
  by_cases hcp : (e1.1.1, e2.1.1) = cp
  · by_cases hor : orient e1.1.2 e2.1.2 = i
    · have hpair := (orient_flags e1.1.2 e2.1.2 i).1 hor
      have h1 : e1.1 = (cp.1, flagOf1 i) := by
        rw [← hcp]
        exact Prod.ext_iff.2 ⟨rfl, hpair.1⟩
      have h2 : e2.1 = (cp.2, flagOf2 i) := by
        rw [← hcp]
        exact Prod.ext_iff.2 ⟨rfl, hpair.2⟩
      have hc2 : cp.2 = e2.1.1 := by rw [← hcp]
      have d1 : decide ((e1.1.1, e2.1.1) = cp) = true := decide_eq_true hcp
      have d2 : decide (orient e1.1.2 e2.1.2 = i) = true := decide_eq_true hor
      have d3 : decide (e1.1 = (cp.1, flagOf1 i)) = true := decide_eq_true h1
      have d4 : decide (e2.1 = (cp.2, flagOf2 i)) = true := decide_eq_true h2
      rw [d1, d2, d3, d4, hc2]
      simp
    · by_cases h1 : e1.1 = (cp.1, flagOf1 i)
      · by_cases h2 : e2.1 = (cp.2, flagOf2 i)
        · exact absurd ((orient_flags e1.1.2 e2.1.2 i).2
            ⟨congrArg Prod.snd h1, congrArg Prod.snd h2⟩) hor
        · simp [hor, h2]
      · simp [hor, h1]
  · by_cases h1 : e1.1 = (cp.1, flagOf1 i)
    · by_cases h2 : e2.1 = (cp.2, flagOf2 i)
      · have hf1 : e1.1.1 = cp.1 := congrArg Prod.fst h1
        have hf2 : e2.1.1 = cp.2 := congrArg Prod.fst h2
        exact absurd (show (e1.1.1, e2.1.1) = cp from Prod.ext_iff.2 ⟨hf1, hf2⟩) hcp
      · simp [hcp, h2]
    · simp [hcp, h1]

theorem pmGetI_procInner_keyed (ctl : ContigToLength) (params : ArcsParams) (e1 : CI × Int)
    (pm : PairMap) (e2 : CI × Int) (cp : PairKey) (i : Fin 4) :
    pmGetI (procInner ctl params e1 pm e2) cp i =
      pmGetI pm cp i +
        (if decide (e2.1 = (cp.2, flagOf2 i)) &&
            (validBarcodeMapping (ctl cp.2) e2.2 params &&
              (!decide (cp.2.data < e1.1.1.data) && decide (e1.1 = (cp.1, flagOf1 i))))
         then 1 else 0) := by
  rw [pmGetI_procInner, innerCond_eq]

theorem pmGetI_innerFold (ctl : ContigToLength) (params : ArcsParams) (e1 : CI × Int)
    (sm : ScafMap) (hnd : (sm.map Prod.fst).Nodup) (pm : PairMap) (cp : PairKey) (i : Fin 4) :
    pmGetI (sm.foldl (procInner ctl params e1) pm) cp i =
      pmGetI pm cp i +
        (if validKey ctl params sm (cp.2, flagOf2 i) &&
            (!decide (cp.2.data < e1.1.1.data) && decide (e1.1 = (cp.1, flagOf1 i)))
         then 1 else 0) := by
  rw [foldl_obs_add (procInner ctl params e1) (fun pm2 => pmGetI pm2 cp i)
      (fun e2 => if decide (e2.1 = (cp.2, flagOf2 i)) &&
          (validBarcodeMapping (ctl cp.2) e2.2 params &&
            (!decide (cp.2.data < e1.1.1.data) && decide (e1.1 = (cp.1, flagOf1 i))))
        then 1 else 0)
      (fun s e2 => pmGetI_procInner_keyed ctl params e1 s e2 cp i) sm pm,
    map_ite_sum_eq_countP]
  congr 1
  rw [countP_key sm hnd (cp.2, flagOf2 i)
      (fun p => validBarcodeMapping (ctl cp.2) p params &&
        (!decide (cp.2.data < e1.1.1.data) && decide (e1.1 = (cp.1, flagOf1 i))))]
  unfold validKey
  cases hl : lookupA sm (cp.2, flagOf2 i) <;> simp

theorem pmGetI_procOuter (ctl : ContigToLength) (params : ArcsParams) (sm : ScafMap)
    (hnd : (sm.map Prod.fst).Nodup) (st : BarcodeCountMap × PairMap) (e1 : CI × Int)
    (cp : PairKey) (i : Fin 4) :
    pmGetI (procOuter ctl params sm st e1).2 cp i =
      pmGetI st.2 cp i +
        (if validBarcodeMapping (ctl e1.1.1) e1.2 params &&
            (validKey ctl params sm (cp.2, flagOf2 i) &&
              (!decide (cp.2.data < e1.1.1.data) && decide (e1.1 = (cp.1, flagOf1 i))))
         then 1 else 0) := by
  unfold procOuter
  by_cases hv : validBarcodeMapping (ctl e1.1.1) e1.2 params
  · rw [if_neg (by simp [hv])]
    simp only [hv, Bool.true_and]
    exact pmGetI_innerFold ctl params e1 sm hnd st.2 cp i
  · simp [hv]

theorem outerCond_eq (ctl : ContigToLength) (params : ArcsParams) (sm : ScafMap)
    (e1 : CI × Int) (cp : PairKey) (i : Fin 4) :
    (validBarcodeMapping (ctl e1.1.1) e1.2 params &&
      (validKey ctl params sm (cp.2, flagOf2 i) &&
        (!decide (cp.2.data < e1.1.1.data) && decide (e1.1 = (cp.1, flagOf1 i))))) =
    (decide (e1.1 = (cp.1, flagOf1 i)) &&
      (validBarcodeMapping (ctl cp.1) e1.2 params &&
        (validKey ctl params sm (cp.2, flagOf2 i) && !decide (cp.2.data < cp.1.data)))) := by
  by_cases h1 : e1.1 = (cp.1, flagOf1 i)
  · have hc : e1.1.1 = cp.1 := congrArg Prod.fst h1
    rw [hc]
    cases validBarcodeMapping (ctl cp.1) e1.2 params <;>
      cases validKey ctl params sm (cp.2, flagOf2 i) <;> simp [h1]
  · simp [h1]

theorem pmGetI_procOuter_keyed (ctl : ContigToLength) (params : ArcsParams) (sm : ScafMap)
    (hnd : (sm.map Prod.fst).Nodup) (st : BarcodeCountMap × PairMap) (e1 : CI × Int)
    (cp : PairKey) (i : Fin 4) :
    pmGetI (procOuter ctl params sm st e1).2 cp i =
      pmGetI st.2 cp i +
        (if decide (e1.1 = (cp.1, flagOf1 i)) &&
            (validBarcodeMapping (ctl cp.1) e1.2 params &&
              (validKey ctl params sm (cp.2, flagOf2 i) && !decide (cp.2.data < cp.1.data)))
         then 1 else 0) := by
  rw [pmGetI_procOuter ctl params sm hnd st e1, outerCond_eq]

theorem pmGetI_barcodeFold (ctl : ContigToLength) (params : ArcsParams) (sm : ScafMap)
    (hnd : (sm.map Prod.fst).Nodup) (st : BarcodeCountMap × PairMap) (cp : PairKey)
    (i : Fin 4) :
    pmGetI (sm.foldl (procOuter ctl params sm) st).2 cp i =
      pmGetI st.2 cp i +
        (if validKey ctl params sm (cp.1, flagOf1 i) &&
            (validKey ctl params sm (cp.2, flagOf2 i) && !decide (cp.2.data < cp.1.data))
         then 1 else 0) := by
  rw [foldl_obs_add (procOuter ctl params sm) (fun st2 => pmGetI st2.2 cp i)
      (fun e1 => if decide (e1.1 = (cp.1, flagOf1 i)) &&
          (validBarcodeMapping (ctl cp.1) e1.2 params &&
            (validKey ctl params sm (cp.2, flagOf2 i) && !decide (cp.2.data < cp.1.data)))
        then 1 else 0)
      (fun s e1 => pmGetI_procOuter_keyed ctl params sm hnd s e1 cp i) sm st,
    map_ite_sum_eq_countP]
  congr 1
  rw [countP_key sm hnd (cp.1, flagOf1 i)
      (fun p => validBarcodeMapping (ctl cp.1) p params &&
        (validKey ctl params sm (cp.2, flagOf2 i) && !decide (cp.2.data < cp.1.data)))]
  unfold validKey
  cases hl : lookupA sm (cp.1, flagOf1 i) <;> simp

theorem sideGet_procOuter (ctl : ContigToLength) (params : ArcsParams) (sm : ScafMap)
    (st : BarcodeCountMap × PairMap) (e1 : CI × Int) (k : CI) :
    sideGet (procOuter ctl params sm st e1).1 k =
      sideGet st.1 k +
        (if decide (e1.1 = k) && validBarcodeMapping (ctl k.1) e1.2 params
         then 1 else 0) := by
  unfold procOuter
  by_cases hv : validBarcodeMapping (ctl e1.1.1) e1.2 params
  · rw [if_neg (by simp [hv])]
    show sideGet (sideBump st.1 e1.1) k = _
    rw [sideGet_sideBump]
    by_cases h : e1.1 = k
    · rw [← h]
      simp [hv]
    · have h2 : ¬ k = e1.1 := fun hh => h hh.symm
      simp [h, h2]
  · by_cases h : e1.1 = k
    · rw [← h]
      simp [hv]
    · simp [hv, h]

theorem sideGet_barcodeFold (ctl : ContigToLength) (params : ArcsParams) (sm : ScafMap)
    (hnd : (sm.map Prod.fst).Nodup) (st : BarcodeCountMap × PairMap) (k : CI) :
    sideGet (sm.foldl (procOuter ctl params sm) st).1 k =
      sideGet st.1 k + (if validKey ctl params sm k then 1 else 0) := by
  rw [foldl_obs_add (procOuter ctl params sm) (fun st2 => sideGet st2.1 k)
      (fun e1 => if decide (e1.1 = k) && validBarcodeMapping (ctl k.1) e1.2 params
        then 1 else 0)
      (fun s e1 => sideGet_procOuter ctl params sm s e1 k) sm st,
    map_ite_sum_eq_countP]
  congr 1
  rw [countP_key sm hnd k (fun p => validBarcodeMapping (ctl k.1) p params)]
  unfold validKey
  cases hl : lookupA sm k <;> simp

/-! ### Pair Statistics Builder: the scan invariant -/

theorem procOuter_side_pos (ctl : ContigToLength) (params : ArcsParams) (sm : ScafMap)
    (st : BarcodeCountMap × PairMap) (e1 : CI × Int)
    (h : ∀ kv ∈ st.1, 1 ≤ kv.2) : ∀ kv ∈ (procOuter ctl params sm st e1).1, 1 ≤ kv.2 := by
  unfold procOuter
  by_cases hv : validBarcodeMapping (ctl e1.1.1) e1.2 params
  · rw [if_neg (by simp [hv])]
    exact mem_updA_values st.1 e1.1 0 (fun n => n + 1) (fun v => 1 ≤ v) h
      (fun v hv2 => Nat.le_succ_of_le hv2) (Nat.le_refl 1)
  · have hv2 : (!validBarcodeMapping (ctl e1.1.1) e1.2 params) = true := by
      simp [hv]
    rw [if_pos hv2]
    exact h

theorem procOuter_pm_nodup (ctl : ContigToLength) (params : ArcsParams) (sm : ScafMap)
    (st : BarcodeCountMap × PairMap) (e1 : CI × Int)
    (h : (st.2.map Prod.fst).Nodup) : ((procOuter ctl params sm st e1).2.map Prod.fst).Nodup := by
  unfold procOuter
  by_cases hv : validBarcodeMapping (ctl e1.1.1) e1.2 params
  · rw [if_neg (by simp [hv])]
    exact foldl_preserve (procInner ctl params e1) (fun pm => (pm.map Prod.fst).Nodup)
      (fun s a hs => by
        unfold procInner
        split
        · exact hs
        · split
          · exact hs
          · exact updA_keys_nodup _ _ _ _ hs) sm st.2 h
  · have hv2 : (!validBarcodeMapping (ctl e1.1.1) e1.2 params) = true := by
      simp [hv]
    rw [if_pos hv2]
    exact h

theorem procPairBarcode_invariant (ctl : ContigToLength) (params : ArcsParams)
    (mult : IndexMultMap) (b : String × ScafMap) (hnd : (b.2.map Prod.fst).Nodup)
    (st : BarcodeCountMap × PairMap) (hInv : pairInvariant st) :
    pairInvariant (procPairBarcode ctl params mult st b) := by
  unfold procPairBarcode
  by_cases hmult : (mult b.1 < params.min_mult || params.max_mult < mult b.1) = true
  · simpa [hmult] using hInv
  · simp only [Bool.not_eq_true] at hmult
    simp only [hmult, Bool.false_eq_true, if_false]
    refine ⟨?_, ?_, ?_⟩
    · exact foldl_preserve (procOuter ctl params b.2) (fun st2 => ∀ kv ∈ st2.1, 1 ≤ kv.2)
        (fun s a hs => procOuter_side_pos ctl params b.2 s a hs) b.2 st hInv.1
    · exact foldl_preserve (procOuter ctl params b.2) (fun st2 => (st2.2.map Prod.fst).Nodup)
        (fun s a hs => procOuter_pm_nodup ctl params b.2 s a hs) b.2 st hInv.2.1
    · intro cp i
      have hpm := pmGetI_barcodeFold ctl params b.2 hnd st cp i
      have hs1 := sideGet_barcodeFold ctl params b.2 hnd st (cp.1, flagOf1 i)
      have hs2 := sideGet_barcodeFold ctl params b.2 hnd st (cp.2, flagOf2 i)
      have hold := hInv.2.2 cp i
      have harith : ∀ A B C : Bool,
          ((if A && (B && C) then 1 else 0 : Nat) ≤ (if A then 1 else 0)) ∧
          ((if A && (B && C) then 1 else 0 : Nat) ≤ (if B then 1 else 0)) := by decide
      have hf := harith (validKey ctl params b.2 (cp.1, flagOf1 i))
        (validKey ctl params b.2 (cp.2, flagOf2 i)) (!decide (cp.2.data < cp.1.data))
      constructor
      · rw [hpm, hs1]
        omega
      · rw [hpm, hs2]
        omega

theorem pairScan_invariant (imap : IndexMap) (ctl : ContigToLength) (mult : IndexMultMap)
    (params : ArcsParams) (hnd : ∀ b ∈ imap, (b.2.map Prod.fst).Nodup) :
    pairInvariant (pairScan imap ctl mult params) := by
  unfold pairScan
  have hbase : pairInvariant ([], []) := by
    refine ⟨by simp, by simp, ?_⟩
    intro cp i
    constructor <;> simp [pmGetI, sideGet, lookupA]
  exact foldl_preserve_mem (procPairBarcode ctl params mult) pairInvariant imap
    (fun s b hb hs => procPairBarcode_invariant ctl params mult b (hnd b hb) s hs) ([], []) hbase

/-! ### Pair Statistics Builder: the post-scan fill -/

theorem fillRecAt_spec {t : BarcodeCountMap} {cp : PairKey} {i : Fin 4} {rec r : PairRecord}
    (h : fillRecAt t cp i rec = some r) :
    ∃ b1 b2, lookupA t (cp.1, flagOf1 i) = some b1 ∧ lookupA t (cp.2, flagOf2 i) = some b2 ∧
      r = { rec with
              barcodes1 := b1
              barcodes2 := b2
              barcodesUnion := b1 + b2 - rec.barcodesIntersect } := by
  unfold fillRecAt at h
  cases hl1 : lookupA t (cp.1, flagOf1 i) <;> cases hl2 : lookupA t (cp.2, flagOf2 i) <;>
    rw [hl1, hl2] at h <;> simp at h
  exact ⟨_, _, rfl, rfl, h.symm⟩

theorem fillArr_spec {t : BarcodeCountMap} {cp : PairKey} {arr arr' : PairArr}
    (h : fillArr t cp arr = some arr') (i : Fin 4) :
    ∃ b1 b2, lookupA t (cp.1, flagOf1 i) = some b1 ∧ lookupA t (cp.2, flagOf2 i) = some b2 ∧
      arr' i = { arr i with
                   barcodes1 := b1
                   barcodes2 := b2
                   barcodesUnion := b1 + b2 - (arr i).barcodesIntersect } := by
  unfold fillArr at h
  cases h0 : fillRecAt t cp 0 (arr 0) <;> rw [h0] at h <;>
    cases h1 : fillRecAt t cp 1 (arr 1) <;> rw [h1] at h <;>
      cases h2 : fillRecAt t cp 2 (arr 2) <;> rw [h2] at h <;>
        cases h3 : fillRecAt t cp 3 (arr 3) <;> rw [h3] at h <;> simp at h
  obtain ⟨v0, w0, hl0, hr0, he0⟩ := fillRecAt_spec h0
  obtain ⟨v1, w1, hl1, hr1, he1⟩ := fillRecAt_spec h1
  obtain ⟨v2, w2, hl2, hr2, he2⟩ := fillRecAt_spec h2
  obtain ⟨v3, w3, hl3, hr3, he3⟩ := fillRecAt_spec h3
  subst h
  rcases i with ⟨iv, hlt⟩
  interval_cases iv
  · exact ⟨v0, w0, hl0, hr0, by simpa using he0⟩
  · exact ⟨v1, w1, hl1, hr1, by simpa using he1⟩
  · exact ⟨v2, w2, hl2, hr2, by simpa using he2⟩
  · exact ⟨v3, w3, hl3, hr3, by simpa using he3⟩

theorem fillAll_mem {t : BarcodeCountMap} {pm pm' : PairMap} (h : fillAll t pm = some pm') :
    ∀ e2 ∈ pm', ∃ arr, (e2.1, arr) ∈ pm ∧ fillArr t e2.1 arr = some e2.2 := by
  induction pm generalizing pm' with
  | nil =>
    unfold fillAll at h
    obtain rfl : ([] : PairMap) = pm' := Option.some.inj h
    intro e2 he2
    simp at he2
  | cons e rest ih =>
    unfold fillAll at h
    cases hf : fillArr t e.1 e.2 <;> rw [hf] at h <;>
      cases hr : fillAll t rest <;> rw [hr] at h <;> simp at h
    subst h
    intro e2 he2
    rcases List.mem_cons.1 he2 with rfl | he2
    · exact ⟨e.2, by simp, hf⟩
    · obtain ⟨arr, hmem, hfill⟩ := ih hr e2 he2
      exact ⟨arr, by simp [hmem], hfill⟩

/-! ### C1: the post-scan side-table lookups -/

/-- C1: counterexample.  `pmap[pair].fill(PairRecord())` materialises all
four orientation variants of a pair as soon as any single orientation is
observed, and the post-scan loop looks up the side table for the two ends
of every one of the four variants.  With one barcode observed only at the
heads of contigs `A` and `B`, the pair map holds pairs whose head-tail
variants were never observed; the side table has no entry for any tail,
so the post-scan lookup misses (`at` would throw `std::out_of_range`) and
the computation aborts — refuting the claim that the lookup always
succeeds. -/
theorem calcContigPairBarcodeStats_lookup_can_fail :
    calcContigPairBarcodeStats imapC1 ctlEx multEx paramsEx = none := by rfl

/-- C1 (amended): the claim's justification holds exactly for the
variants that were actually observed: for every pair in the scanned pair
map and every orientation variant whose shared-barcode count is positive,
the post-scan side-table lookups for the two ends of that variant
succeed, because such a variant is only incremented when both of its ends
were observed with qualifying barcodes.  Variants merely materialised by
`fill` (shared count 0) have no such guarantee and their lookup can
miss. -/
theorem pairScan_observed_variant_lookups_succeed (imap : IndexMap) (ctl : ContigToLength)
    (mult : IndexMultMap) (params : ArcsParams)
    (hnd : ∀ b ∈ imap, (b.2.map Prod.fst).Nodup) (cp : PairKey) (i : Fin 4)
    (hI : 0 < pmGetI (pairScan imap ctl mult params).2 cp i) :
    (lookupA (pairScan imap ctl mult params).1 (cp.1, flagOf1 i)).isSome ∧
    (lookupA (pairScan imap ctl mult params).1 (cp.2, flagOf2 i)).isSome := by
  have hInv := pairScan_invariant imap ctl mult params hnd
  have hb := hInv.2.2 cp i
  constructor
  · have h1 := hb.1
    unfold sideGet at h1
    cases hl : lookupA (pairScan imap ctl mult params).1 (cp.1, flagOf1 i) with
    | none =>
      rw [hl] at h1
      simp at h1
      omega
    | some v => simp
  · have h2 := hb.2
    unfold sideGet at h2
    cases hl : lookupA (pairScan imap ctl mult params).1 (cp.2, flagOf2 i) with
    | none =>
      rw [hl] at h2
      simp at h2
      omega
    | some v => simp

/-- Witness for the amended C1: from `imapEx` the head-head variant of
the pair (A, A) has a positive shared count and both side-table lookups
succeed. -/
theorem pairScan_observed_variant_lookups_succeed_witness :
    (lookupA (pairScan imapEx ctlEx multEx paramsEx).1 (("A", "A").1, flagOf1 0)).isSome ∧
    (lookupA (pairScan imapEx ctlEx multEx paramsEx).1 (("A", "A").2, flagOf2 0)).isSome :=
  pairScan_observed_variant_lookups_succeed imapEx ctlEx multEx paramsEx (by decide)
    ("A", "A") 0 (by decide)

/-! ### C5: invariants of the completed pair records -/

/-- C5: every orientation variant of every pair produced by
`calcContigPairBarcodeStats` satisfies `barcodes1 > 0`, `barcodes2 > 0`,
`barcodesUnion = barcodes1 + barcodes2 − barcodesIntersect` (a genuine
subtraction: union + intersect = barcodes1 + barcodes2) and
`barcodesUnion ≥ barcodesIntersect`; consequently the Jaccard score
`barcodesIntersect / barcodesUnion` computed by `estimateDistance` lies
in [0, 1] whenever `barcodesUnion > 0`. -/
theorem calcContigPairBarcodeStats_invariants (imap : IndexMap) (ctl : ContigToLength)
    (mult : IndexMultMap) (params : ArcsParams)
    (hnd : ∀ b ∈ imap, (b.2.map Prod.fst).Nodup) (pm2 : PairMap)
    (hres : calcContigPairBarcodeStats imap ctl mult params = some pm2)
    (cp : PairKey) (arr : PairArr) (hmem : (cp, arr) ∈ pm2) (i : Fin 4) :
    0 < (arr i).barcodes1 ∧ 0 < (arr i).barcodes2 ∧
    (arr i).barcodesUnion =
      (arr i).barcodes1 + (arr i).barcodes2 - (arr i).barcodesIntersect ∧
    (arr i).barcodesUnion + (arr i).barcodesIntersect =
      (arr i).barcodes1 + (arr i).barcodes2 ∧
    (arr i).barcodesIntersect ≤ (arr i).barcodesUnion ∧
    (0 < (arr i).barcodesUnion →
      0 ≤ ((arr i).barcodesIntersect : ℚ) / ((arr i).barcodesUnion : ℚ) ∧
      ((arr i).barcodesIntersect : ℚ) / ((arr i).barcodesUnion : ℚ) ≤ 1) := by
  have hInv := pairScan_invariant imap ctl mult params hnd
  unfold calcContigPairBarcodeStats at hres
  obtain ⟨arr0, hmem0, hfill⟩ := fillAll_mem hres (cp, arr) hmem
  obtain ⟨b1, b2, hl1, hl2, harr⟩ := fillArr_spec hfill i
  dsimp only at hmem0 hfill hl1 hl2 harr
  have hpos1 : 1 ≤ b1 := hInv.1 _ (lookupA_mem hl1)
  have hpos2 : 1 ≤ b2 := hInv.1 _ (lookupA_mem hl2)
  have hlk : lookupA (pairScan imap ctl mult params).2 cp = some arr0 :=
    lookupA_eq_some_of_mem hInv.2.1 hmem0
  have hIv : pmGetI (pairScan imap ctl mult params).2 cp i = (arr0 i).barcodesIntersect := by
    unfold pmGetI
    rw [hlk]
    rfl
  have hcouple := hInv.2.2 cp i
  rw [hIv] at hcouple
  have hc1 : (arr0 i).barcodesIntersect ≤ b1 := by
    have hx := hcouple.1
    unfold sideGet at hx
    rw [hl1] at hx
    simpa using hx
  have hc2 : (arr0 i).barcodesIntersect ≤ b2 := by
    have hx := hcouple.2
    unfold sideGet at hx
    rw [hl2] at hx
    simpa using hx
  rw [harr]
  dsimp only
  refine ⟨by omega, by omega, rfl, by omega, by omega, ?_⟩
  intro hU
  have hle : (arr0 i).barcodesIntersect ≤ b1 + b2 - (arr0 i).barcodesIntersect := by omega
  constructor
  · exact div_nonneg (Nat.cast_nonneg _) (Nat.cast_nonneg _)
  · rw [div_le_one (by exact_mod_cast hU)]
    exact_mod_cast hle

/-- Witness for C5 at the head-head variant of the pair (A, A) produced
from `imapEx`. -/
theorem calcContigPairBarcodeStats_invariants_witness :
    0 < (arrEx5 0).barcodes1 ∧ 0 < (arrEx5 0).barcodes2 ∧
    (arrEx5 0).barcodesUnion =
      (arrEx5 0).barcodes1 + (arrEx5 0).barcodes2 - (arrEx5 0).barcodesIntersect ∧
    (arrEx5 0).barcodesUnion + (arrEx5 0).barcodesIntersect =
      (arrEx5 0).barcodes1 + (arrEx5 0).barcodes2 ∧
    (arrEx5 0).barcodesIntersect ≤ (arrEx5 0).barcodesUnion ∧
    (0 < (arrEx5 0).barcodesUnion →
      0 ≤ ((arrEx5 0).barcodesIntersect : ℚ) / ((arrEx5 0).barcodesUnion : ℚ) ∧
      ((arrEx5 0).barcodesIntersect : ℚ) / ((arrEx5 0).barcodesUnion : ℚ) ≤ 1) :=
  calcContigPairBarcodeStats_invariants imapEx ctlEx multEx paramsEx (by decide) pmEx5
    (by rfl) ("A", "A") arrEx5 (List.mem_singleton.mpr rfl) 0

/-! ### C8: the successful path of the distance estimator -/

theorem closestKeys_eq_specWindow (jtd : JaccardToDist) (key binSize : ℚ) :
    closestKeys jtd key binSize = specWindow jtd key binSize := by
  unfold closestKeys specWindow
  apply List.filter_congr
  intro kv _
  have hiff : (key - binSize ≤ kv.1 ∧ kv.1 ≤ key + binSize) ↔ |kv.1 - key| ≤ binSize := by
    rw [abs_le]
    constructor
    · rintro ⟨ha, hb⟩
      constructor <;> linarith
    · rintro ⟨ha, hb⟩
      constructor <;> linarith
  rw [← Bool.decide_and]
  exact decide_eq_decide.mpr hiff

theorem quantile_of_ne_nil {l : List Nat} (h : l ≠ []) (q : ℚ) :
    quantile l q = interpolatedQuantile l q := by
  unfold quantile
  cases l with
  | nil => exact absurd rfl h
  | cons a rest => rfl

/-- C8: on its successful path — nonempty calibration index, positive
union, and (per the spec's intent, compare C3) a nonempty similarity
window — `estimateDistance` collects the known distances of exactly the
index entries whose key lies within `± dist_bin_size` of the pair's
Jaccard score, sorts them, and returns `minDist` equal to the floor of
the 1st percentile and `maxDist` equal to the ceiling of the 99th
percentile of that sorted list under linear-interpolation quantile
semantics, together with success = `true`. -/
theorem estimateDistance_window_quantiles (rec : PairRecord) (jtd : JaccardToDist)
    (params : ArcsParams) (h1 : jtd ≠ []) (h2 : ¬ rec.barcodesUnion = 0)
    (h3 : specWindow jtd ((rec.barcodesIntersect : ℚ) / (rec.barcodesUnion : ℚ))
      params.dist_bin_size ≠ []) :
    estimateDistance rec jtd params =
      ({ minDist :=
           ⌊interpolatedQuantile
             (((specWindow jtd ((rec.barcodesIntersect : ℚ) / (rec.barcodesUnion : ℚ))
                 params.dist_bin_size).map (fun kv => kv.2.distance)).mergeSort
               (fun a b => a ≤ b)) (1 / 100)⌋,
         maxDist :=
           ⌈interpolatedQuantile
             (((specWindow jtd ((rec.barcodesIntersect : ℚ) / (rec.barcodesUnion : ℚ))
                 params.dist_bin_size).map (fun kv => kv.2.distance)).mergeSort
               (fun a b => a ≤ b)) (99 / 100)⌉,
         jaccard := (rec.barcodesIntersect : ℚ) / (rec.barcodesUnion : ℚ) }, true) := by
  have hie : jtd.isEmpty = false := by
    cases jtd with
    | nil => exact absurd rfl h1
    | cons a rest => rfl
  have hsz : (((specWindow jtd ((rec.barcodesIntersect : ℚ) / (rec.barcodesUnion : ℚ))
      params.dist_bin_size).map (fun kv => kv.2.distance)).mergeSort
        (fun a b => a ≤ b)) ≠ [] := by
    intro hh
    apply h3
    have hlen := (List.mergeSort_perm
      ((specWindow jtd ((rec.barcodesIntersect : ℚ) / (rec.barcodesUnion : ℚ))
        params.dist_bin_size).map (fun kv => kv.2.distance))
      (fun a b => a ≤ b)).length_eq
    rw [hh] at hlen
    simp only [List.length_nil] at hlen
    have hmap : ((specWindow jtd ((rec.barcodesIntersect : ℚ) / (rec.barcodesUnion : ℚ))
        params.dist_bin_size).map (fun kv => kv.2.distance)) = [] :=
      List.eq_nil_of_length_eq_zero hlen.symm
    simpa using hmap
  unfold estimateDistance
  simp only [hie, Bool.false_eq_true, if_false]
  rw [if_neg h2, closestKeys_eq_specWindow, quantile_of_ne_nil hsz, quantile_of_ne_nil hsz]

/-- Witness for C8: a pair with Jaccard score 1 against a one-entry index
keyed 1, whose window is nonempty. -/
theorem estimateDistance_window_quantiles_witness :
    estimateDistance recEx5 jtdC8 paramsEx =
      ({ minDist :=
           ⌊interpolatedQuantile
             (((specWindow jtdC8 ((recEx5.barcodesIntersect : ℚ) / (recEx5.barcodesUnion : ℚ))
                 paramsEx.dist_bin_size).map (fun kv => kv.2.distance)).mergeSort
               (fun a b => a ≤ b)) (1 / 100)⌋,
         maxDist :=
           ⌈interpolatedQuantile
             (((specWindow jtdC8 ((recEx5.barcodesIntersect : ℚ) / (recEx5.barcodesUnion : ℚ))
                 paramsEx.dist_bin_size).map (fun kv => kv.2.distance)).mergeSort
               (fun a b => a ≤ b)) (99 / 100)⌉,
         jaccard := (recEx5.barcodesIntersect : ℚ) / (recEx5.barcodesUnion : ℚ) }, true) :=
  estimateDistance_window_quantiles recEx5 jtdC8 paramsEx (by simp [jtdC8]) (by decide)
    (by norm_num [specWindow, jtdC8, recEx5, paramsEx])

end Arks
